import Mathlib

/-!
Verification development for the animation-server pipeline
(`server.js` split into controllers/services/utils).

The JavaScript sources are shallowly embedded: every remote call
(Forge/Gemini HTTP, file system) is represented by an explicit outcome
value passed in, and each controller/service function is transcribed as a
pure Lean function over those outcomes, returning the effects it performs
(session writes, directory creation, file removal, responses) in program
order.
-/

namespace AnimServer

/-- Outcome of one awaited JavaScript operation: either a value or a thrown
error carrying its `error.message` string. -/
inductive JsResult (α : Type) where
  | ok (val : α)
  | err (msg : String)
deriving DecidableEq, Repr

/-! ## Session records (`src/services/sessionService.js`)

A session record is the JSON object stored in `session.json`.  JavaScript
object fields may be absent, so every field is an `Option`. -/

/-- The `status` field values written by the code
(`src/controllers/processController.js`). -/
inductive Status where
  | queued
  | processing
  | completed
  | failed
deriving DecidableEq, Repr

/-- The `result` payload written on completion
(`processController.js` lines 109-113). -/
structure ResultPayload where
  accessToken : String
  encodedUrn : String
  bucketKey : String
deriving DecidableEq, Repr

/-- A session record as persisted in `session.json`.  Timestamps are
milliseconds since epoch (`new Date(...)`). -/
structure Session where
  status : Option Status := none
  message : Option String := none
  progress : Option Nat := none
  result : Option ResultPayload := none
  error : Option String := none
  fileName : Option String := none
  createdAt : Option Int := none
  updatedAt : Option Int := none
deriving DecidableEq, Repr

/-- A partial update passed to `SessionManager.updateSession`: the literal
object supplied by a caller, with absent fields `none`. -/
structure SessionUpdate where
  status : Option Status := none
  message : Option String := none
  progress : Option Nat := none
  result : Option ResultPayload := none
  error : Option String := none
  fileName : Option String := none
deriving DecidableEq, Repr

/-- JavaScript object-spread of a field: the update wins when it carries the
field, otherwise the existing value is kept. -/
def mergeField {α : Type} (new old : Option α) : Option α :=
  match new with
  | some v => some v
  | none => old

/-- `SessionManager.updateSession` (sessionService.js lines 38-73): spread
the existing record (or a fresh `\x7b createdAt \x7d` object when none
exists), spread the update over it, and stamp `updatedAt`. -/
def updateSession (existing : Option Session) (u : SessionUpdate) (now : Int) : Session :=
  let base : Session :=
    match existing with
    | some s => s
    | none => { createdAt := some now }
  { status := mergeField u.status base.status
    message := mergeField u.message base.message
    progress := mergeField u.progress base.progress
    result := mergeField u.result base.result
    error := mergeField u.error base.error
    fileName := mergeField u.fileName base.fileName
    createdAt := base.createdAt
    updatedAt := some now }

/-- Fold a list of updates over a store state (all stamped at time 0; the
claims settled here do not depend on the stamped values). -/
def applyUpdates (us : List SessionUpdate) (s : Option Session) : Option Session :=
  us.foldl (fun acc u => some (updateSession acc u 0)) s

/-! ## Configuration (`src/config/config.js`) -/

def SESSION_CLEANUP_HOURS : Nat := 24

def TRANSLATION_TIMEOUT_MINUTES : Nat := 30

def TRANSLATION_CHECK_INTERVAL : Nat := 10000

/-! ## Translation-status polling (`ForgeClient.checkTranslationStatus`,
`src/utils/fileUtils.js` part of forgeService, lines 425-467)

Each attempt issues one GET of the manifest; the response seen by the code
is one of: a JSON body with `status`/`progress`/`messages`, an axios error
carrying an HTTP status code, or an error without a response. -/

/-- What one manifest poll yields, as observed by the `try` block. -/
inductive ManifestResp where
  | body (status : String) (progress : Option String) (messages : Option (List String))
  | httpErr (code : Nat)
  | netErr (msg : String)
deriving DecidableEq, Repr

/-- The distinct failure outcomes of `checkTranslationStatus`, one per
`throw` site. -/
inductive TransError where
  | remoteFailure (msg : String)
  | requestError (code : Nat)
  | network (msg : String)
  | pollTimeout (minutes : Nat)
deriving DecidableEq, Repr

/-- The failure message built at line 451:
`response.data.messages?.map(m => m.message).join('; ') || 'Translation ' + status`.
An empty join is falsy in JavaScript, so it falls back too. -/
def failureMessage (msgs : Option (List String)) (st : String) : String :=
  match msgs with
  | some l =>
      let j := String.intercalate "; " l
      if j = "" then "Translation " ++ st else j
  | none => "Translation " ++ st

/-- The result of a whole polling run: the progress-callback messages issued
(in order), the number of manifest requests made, and the outcome. -/
structure PollRun where
  msgs : List String
  attempts : Nat
  result : Except TransError Unit
deriving Repr

/-- One loop of `checkTranslationStatus`, indexed by the current `attempt`
and the remaining iterations (`fuel`); `oracle` gives the response of each
attempt.  A thrown remote-failure error has no `response` field, so the
`catch` clause rethrows it; only an HTTP 404 during the first three
attempts is swallowed and retried. -/
def checkStatusGo (oracle : Nat → ManifestResp) : Nat → Nat → PollRun
  | _, 0 => ⟨[], 0, .error (.pollTimeout TRANSLATION_TIMEOUT_MINUTES)⟩
  | attempt, fuel + 1 =>
    match oracle attempt with
    | .body st pr msgs =>
        let m := "Translation " ++ st ++ " - " ++ pr.getD "0%"
        if st = "success" then ⟨[m], 1, .ok ()⟩
        else if st = "failed" ∨ st = "timeout" then
          ⟨[m], 1, .error (.remoteFailure (failureMessage msgs st))⟩
        else
          let r := checkStatusGo oracle (attempt + 1) fuel
          ⟨m :: r.msgs, r.attempts + 1, r.result⟩
    | .httpErr code =>
        if code = 404 ∧ attempt < 3 then
          let r := checkStatusGo oracle (attempt + 1) fuel
          ⟨r.msgs, r.attempts + 1, r.result⟩
        else ⟨[], 1, .error (.requestError code)⟩
    | .netErr m => ⟨[], 1, .error (.network m)⟩

/-- `maxAttempts` at line 426: floor of budget over interval. -/
def maxAttempts : Nat :=
  TRANSLATION_TIMEOUT_MINUTES * 60 * 1000 / TRANSLATION_CHECK_INTERVAL

/-- `ForgeClient.checkTranslationStatus` as a function of the manifest
responses. -/
def checkTranslationStatus (oracle : Nat → ManifestResp) : PollRun :=
  checkStatusGo oracle 0 maxAttempts

/-- A manifest body whose status is none of `success`, `failed`, `timeout`:
the loop sleeps and polls again. -/
def isPendingResp : ManifestResp → Prop
  | .body st _ _ => ¬(st = "success" ∨ st = "failed" ∨ st = "timeout")
  | _ => False

instance : DecidablePred isPendingResp := fun r =>
  match r with
  | .body st _ _ =>
      inferInstanceAs (Decidable ¬(st = "success" ∨ st = "failed" ∨ st = "timeout"))
  | .httpErr _ => inferInstanceAs (Decidable False)
  | .netErr _ => inferInstanceAs (Decidable False)

/-- Attempt `j` does not settle the loop: either a pending manifest body, or
an HTTP 404 inside the three-attempt grace period. -/
def notReadyAt (oracle : Nat → ManifestResp) (j : Nat) : Prop :=
  isPendingResp (oracle j) ∨ (oracle j = .httpErr 404 ∧ j < 3)

instance (oracle : Nat → ManifestResp) (j : Nat) : Decidable (notReadyAt oracle j) :=
  inferInstanceAs (Decidable (isPendingResp (oracle j) ∨ (oracle j = .httpErr 404 ∧ j < 3)))

/-! ## Pipeline orchestrator (`processFiles`,
`src/controllers/processController.js` lines 11-129)

Remote calls are abstracted by their outcomes as seen at the `await` in
`processFiles`; `checkTranslationStatus` is modelled precisely above. -/

/-- `ForgeClient.uploadAllFiles` (forgeService lines 229-265) restricted to
its observable behaviour in `processFiles`: one outcome per file in walk
order, the progress-callback messages issued after each successful upload,
and the overall outcome (the first failure aborts and rethrows). -/
def uploadAllFilesGo (total : Nat) : Nat → List (JsResult Unit) → List String × JsResult Unit
  | _, [] => ([], .ok ())
  | uploaded, r :: rs =>
    match r with
    | .ok _ =>
        let rest := uploadAllFilesGo total (uploaded + 1) rs
        (("Uploaded " ++ toString (uploaded + 1) ++ "/" ++ toString total ++ " files") :: rest.1,
         rest.2)
    | .err m => ([], .err m)

def uploadAllFiles (files : List (JsResult Unit)) : List String × JsResult Unit :=
  uploadAllFilesGo files.length 0 files

/-- The outcomes of every awaited operation inside one `processFiles` run. -/
structure PipelineEnv where
  /-- `forgeClient.getAccessToken`: the token, or the wrapped error. -/
  tokenResult : JsResult String
  /-- The generated `bucket_<uuid>` key. -/
  bucketKey : String
  /-- `forgeClient.createBucket`. -/
  bucketResult : JsResult Bool
  /-- Per-file outcomes seen by `uploadAllFiles`. -/
  uploadFiles : List (JsResult Unit)
  /-- `FileUtils.detectAssemblyFile`: it catches its own errors and returns
  the first `.iam` path or null. -/
  assemblyResult : Option String
  /-- `forgeClient.linkReferences`. -/
  linkResult : JsResult Bool
  /-- `forgeClient.startTranslationJob`: the encoded URN. -/
  startJobResult : JsResult String
  /-- Manifest responses consumed by `checkTranslationStatus`. -/
  manifestOracle : Nat → ManifestResp
  /-- `forgeClient.getMetadata`: the first viewable GUID (its own
  no-viewables case is rethrown as an error by the client). -/
  metadataResult : JsResult String
  /-- `forgeClient.getObjectHierarchy`. -/
  hierarchyResult : JsResult Unit
  /-- `forgeClient.getProperties`. -/
  propertiesResult : JsResult Unit

/-- The `error.message` string of a `checkTranslationStatus` failure, as
seen by the `catch` in `processFiles`. -/
def TransError.message : TransError → String
  | .remoteFailure m => m
  | .requestError code => "Request failed with status code " ++ toString code
  | .network m => m
  | .pollTimeout minutes => "Translation timeout after " ++ toString minutes ++ " minutes"

/-- A progress-checkpoint update: `message` and `progress` only. -/
def stageUpd (m : String) (p : Nat) : SessionUpdate :=
  { message := some m, progress := some p }

/-- The first update of a run (processController lines 17-21): also flips
`status` to `processing`. -/
def processingUpd : SessionUpdate :=
  { status := some Status.processing, message := some "Getting access token", progress := some 5 }

/-- The completion update (lines 105-114). -/
def completedUpd (accessToken encodedUrn bucketKey : String) : SessionUpdate :=
  { status := some Status.completed
    message := some "Processing completed successfully"
    progress := some 100
    result := some ⟨accessToken, encodedUrn, bucketKey⟩ }

/-- The `catch` update (lines 119-124): note `progress` is reset to 0. -/
def failedUpd (m : String) : SessionUpdate :=
  { status := some Status.failed, message := some m, error := some m, progress := some 0 }

/-- The `try` block of `processFiles`: the session updates written in
order, and the thrown error message if a stage failed. -/
def pipelineBody (env : PipelineEnv) : List SessionUpdate × Option String :=
  let u1 := processingUpd
  match env.tokenResult with
  | .err m => ([u1], some m)
  | .ok accessToken =>
  let u2 := stageUpd "Creating bucket" 10
  match env.bucketResult with
  | .err m => ([u1, u2], some m)
  | .ok _ =>
  let u3 := stageUpd "Uploading files" 20
  let up := uploadAllFiles env.uploadFiles
  let uploadUpds := up.1.map (fun m => stageUpd m 25)
  match up.2 with
  | .err m => ([u1, u2, u3] ++ uploadUpds, some m)
  | .ok _ =>
  let u4 := stageUpd "Detecting assembly file" 30
  match env.assemblyResult with
  | none => ([u1, u2, u3] ++ uploadUpds ++ [u4], some "No assembly (.iam) file found")
  | some _assemblyFile =>
  let u5 := stageUpd "Linking references" 40
  match env.linkResult with
  | .err m => ([u1, u2, u3] ++ uploadUpds ++ [u4, u5], some m)
  | .ok _ =>
  let u6 := stageUpd "Starting translation" 50
  match env.startJobResult with
  | .err m => ([u1, u2, u3] ++ uploadUpds ++ [u4, u5, u6], some m)
  | .ok encodedUrn =>
  let u7 := stageUpd "Translating model (this may take several minutes)" 60
  let poll := checkTranslationStatus env.manifestOracle
  let pollUpds := poll.msgs.map (fun m => stageUpd m 65)
  match poll.result with
  | .error e =>
      ([u1, u2, u3] ++ uploadUpds ++ [u4, u5, u6, u7] ++ pollUpds, some e.message)
  | .ok _ =>
  let u8 := stageUpd "Retrieving metadata" 80
  match env.metadataResult with
  | .err m => ([u1, u2, u3] ++ uploadUpds ++ [u4, u5, u6, u7] ++ pollUpds ++ [u8], some m)
  | .ok _guidViewable =>
  let u9 := stageUpd "Extracting hierarchy" 85
  match env.hierarchyResult with
  | .err m =>
      ([u1, u2, u3] ++ uploadUpds ++ [u4, u5, u6, u7] ++ pollUpds ++ [u8, u9], some m)
  | .ok _ =>
  let u10 := stageUpd "Retrieving properties" 95
  match env.propertiesResult with
  | .err m =>
      ([u1, u2, u3] ++ uploadUpds ++ [u4, u5, u6, u7] ++ pollUpds ++ [u8, u9, u10], some m)
  | .ok _ =>
  ([u1, u2, u3] ++ uploadUpds ++ [u4, u5, u6, u7] ++ pollUpds ++
     [u8, u9, u10, completedUpd accessToken encodedUrn env.bucketKey], none)

/-- Observable effects of a pipeline run. -/
inductive Effect where
  | update (u : SessionUpdate)
  | rm (path : String)
  | logError (msg : String)
deriving DecidableEq, Repr

/-- `FileUtils.cleanupPath` (fileUtils.js lines 102-110): always calls
`fs.rm`; its own failure is caught and logged, never rethrown. -/
def cleanupPath (rmResult : JsResult Unit) (p : String) : List Effect :=
  match rmResult with
  | .ok _ => [Effect.rm p]
  | .err m => [Effect.rm p, Effect.logError ("Cleanup failed for " ++ p ++ ": " ++ m)]

/-- `processFiles`: the `try` body, then the `catch` (log + failed update),
then the `finally` cleanup — in effect order. -/
def processFiles (env : PipelineEnv) (rmResult : JsResult Unit)
    (sessionId folderPath : String) : List Effect :=
  let body := pipelineBody env
  let tryCatch :=
    match body.2 with
    | none => body.1.map Effect.update
    | some m =>
        body.1.map Effect.update ++
          [Effect.logError ("Processing failed for session " ++ sessionId ++ ": " ++ m),
           Effect.update (failedUpd m)]
  tryCatch ++ cleanupPath rmResult folderPath

/-- The queued record written by `processUpload` before the run starts
(processController lines 171-176). -/
def queuedUpd (fileName : String) : SessionUpdate :=
  { status := some Status.queued, message := some "Processing queued", progress := some 0,
    fileName := some fileName }

/-- The session writes among a list of effects, in order. -/
def updatesOf (es : List Effect) : List SessionUpdate :=
  es.filterMap (fun e => match e with
    | .update u => some u
    | _ => none)

/-- The session updates of a whole job, from submission on: the queued
record, then everything `processFiles` writes. -/
def jobUpdates (fileName : String) (env : PipelineEnv) (rmResult : JsResult Unit)
    (sessionId folderPath : String) : List SessionUpdate :=
  queuedUpd fileName :: updatesOf (processFiles env rmResult sessionId folderPath)

/-! ## Progress monotonicity infrastructure (claims C1, C2) -/

/-- The `progress` values written by a list of updates, in write order. -/
def progressWrites (us : List SessionUpdate) : List Nat :=
  us.filterMap SessionUpdate.progress

/-- The updates that do not set `status` to `failed`. -/
def nonFailed (us : List SessionUpdate) : List SessionUpdate :=
  us.filter (fun u => decide (u.status ≠ some Status.failed))

/-- `stepChainB lo l hi`: `l` is non-decreasing, starts at or above `lo`,
and ends at or below `hi` (with `lo ≤ hi`). -/
def stepChainB (lo : Nat) : List Nat → Nat → Bool
  | [], hi => lo ≤ hi
  | x :: xs, hi => lo ≤ x && stepChainB x xs hi

lemma stepChainB_lo_mono {a b : Nat} {l : List Nat} {hi : Nat} (hab : a ≤ b)
    (h : stepChainB b l hi = true) : stepChainB a l hi = true := by
  cases l with
  | nil => simp only [stepChainB, decide_eq_true_eq] at h ⊢; omega
  | cons x xs =>
      simp only [stepChainB, Bool.and_eq_true, decide_eq_true_eq] at h ⊢
      exact ⟨le_trans hab h.1, h.2⟩

lemma stepChainB_hi_mono {lo : Nat} {l : List Nat} {b c : Nat} (hbc : b ≤ c)
    (h : stepChainB lo l b = true) : stepChainB lo l c = true := by
  induction l generalizing lo with
  | nil => simp only [stepChainB, decide_eq_true_eq] at h ⊢; omega
  | cons x xs ih =>
      simp only [stepChainB, Bool.and_eq_true] at h ⊢
      exact ⟨h.1, ih h.2⟩

lemma stepChainB_append {a b c : Nat} {l1 l2 : List Nat}
    (h1 : stepChainB a l1 b = true) (h2 : stepChainB b l2 c = true) :
    stepChainB a (l1 ++ l2) c = true := by
  induction l1 generalizing a with
  | nil =>
      simp only [stepChainB, decide_eq_true_eq] at h1
      exact stepChainB_lo_mono h1 h2
  | cons x xs ih =>
      simp only [stepChainB, Bool.and_eq_true] at h1
      simpa only [List.cons_append, stepChainB, Bool.and_eq_true] using
        ⟨h1.1, ih h1.2⟩

lemma stepChainB_replicate (k n : Nat) : stepChainB n (List.replicate k n) n = true := by
  induction k with
  | zero => simp [stepChainB]
  | succ k ih => simpa [List.replicate_succ, stepChainB] using ih

lemma chain'_of_stepChainB {lo hi : Nat} {l : List Nat}
    (h : stepChainB lo l hi = true) : List.Chain' (· ≤ ·) l := by
  induction l generalizing lo with
  | nil => exact List.chain'_nil
  | cons x xs ih =>
      simp only [stepChainB, Bool.and_eq_true] at h
      cases xs with
      | nil => simp
      | cons y ys =>
          have hy : x ≤ y := by
            have := h.2
            simp only [stepChainB, Bool.and_eq_true, decide_eq_true_eq] at this
            exact this.1
          exact List.chain'_cons.mpr ⟨hy, ih h.2⟩

lemma progressWrites_map_stage (msgs : List String) (p : Nat) :
    progressWrites (msgs.map (fun m => stageUpd m p)) = List.replicate msgs.length p := by
  induction msgs with
  | nil => rfl
  | cons m ms ih => simpa [progressWrites, stageUpd, List.replicate_succ] using ih

lemma nonFailed_map_stage (msgs : List String) (p : Nat) :
    nonFailed (msgs.map (fun m => stageUpd m p)) = msgs.map (fun m => stageUpd m p) := by
  induction msgs with
  | nil => rfl
  | cons m ms ih => simp [nonFailed, stageUpd]

/-- A pipeline-body update other than the final completion record: the
initial `processing` update or a message/progress checkpoint. -/
def midUpd (u : SessionUpdate) : Prop :=
  u = processingUpd ∨ ∃ m p, u = stageUpd m p

@[simp] lemma midUpd_stage (m : String) (p : Nat) : midUpd (stageUpd m p) :=
  Or.inr ⟨m, p, rfl⟩

@[simp] lemma midUpd_processing : midUpd processingUpd := Or.inl rfl

lemma progressWrites_append (a b : List SessionUpdate) :
    progressWrites (a ++ b) = progressWrites a ++ progressWrites b :=
  List.filterMap_append a b SessionUpdate.progress

/-- Every update of the list is a non-terminal checkpoint. -/
def allMid (l : List SessionUpdate) : Prop := ∀ u ∈ l, midUpd u

lemma allMid_nil : allMid [] := by intro u hu; cases hu

lemma allMid_append {l1 l2 : List SessionUpdate} (h1 : allMid l1) (h2 : allMid l2) :
    allMid (l1 ++ l2) := by
  intro u hu
  rcases List.mem_append.1 hu with h | h
  · exact h1 u h
  · exact h2 u h

lemma allMid_cons {u : SessionUpdate} {l : List SessionUpdate} (hu : midUpd u)
    (hl : allMid l) : allMid (u :: l) := by
  intro v hv
  rcases List.mem_cons.1 hv with rfl | h
  · exact hu
  · exact hl v h

lemma allMid_map_stage (msgs : List String) (p : Nat) :
    allMid (msgs.map (fun m => stageUpd m p)) := by
  intro u hu
  rcases List.mem_map.1 hu with ⟨m, _, rfl⟩
  simp

/-- Branch analysis of the `try` block: its progress writes form a
non-decreasing chain inside `[0, 100]`; when it throws, every update it
wrote is a non-terminal checkpoint; when it completes, the completion
record is its last update and everything before it is a checkpoint. -/
lemma pipelineBody_facts (env : PipelineEnv) :
    stepChainB 0 (progressWrites (pipelineBody env).1) 100 = true ∧
    (∀ m, (pipelineBody env).2 = some m → allMid (pipelineBody env).1) ∧
    ((pipelineBody env).2 = none →
      ∃ l t r, (pipelineBody env).1 = l ++ [completedUpd t r env.bucketKey] ∧ allMid l) := by
  obtain ⟨tokR, bk, bucketR, files, asmR, linkR, startR, orc, metaR, hierR, propR⟩ := env
  cases tokR with
  | err m =>
      refine ⟨?_, ?_, by simp [pipelineBody]⟩
      · simp only [pipelineBody]; decide
      · simp only [pipelineBody]
        intro m' hm'
        repeat' first
          | exact allMid_map_stage _ _
          | exact allMid_nil
          | refine allMid_append ?_ ?_
          | refine allMid_cons (by simp) ?_
  | ok tok =>
  cases bucketR with
  | err m =>
      refine ⟨?_, ?_, by simp [pipelineBody]⟩
      · simp only [pipelineBody]; decide
      · simp only [pipelineBody]
        intro m' hm'
        repeat' first
          | exact allMid_map_stage _ _
          | exact allMid_nil
          | refine allMid_append ?_ ?_
          | refine allMid_cons (by simp) ?_
  | ok _b =>
  cases hup : (uploadAllFiles files).2 with
  | err m =>
      refine ⟨?_, ?_, by simp [pipelineBody, hup]⟩
      · simp only [pipelineBody, hup, progressWrites_append, progressWrites_map_stage]
        exact stepChainB_hi_mono (by omega)
          (stepChainB_append (by decide) (stepChainB_replicate _ 25))
      · simp only [pipelineBody, hup]
        intro m' hm'
        repeat' first
          | exact allMid_map_stage _ _
          | exact allMid_nil
          | refine allMid_append ?_ ?_
          | refine allMid_cons (by simp) ?_
  | ok _ =>
  cases asmR with
  | none =>
      refine ⟨?_, ?_, by simp [pipelineBody, hup]⟩
      · simp only [pipelineBody, hup, progressWrites_append, progressWrites_map_stage]
        exact stepChainB_append
          (stepChainB_append (by decide) (stepChainB_replicate _ 25)) (by decide)
      · simp only [pipelineBody, hup]
        intro m' hm'
        repeat' first
          | exact allMid_map_stage _ _
          | exact allMid_nil
          | refine allMid_append ?_ ?_
          | refine allMid_cons (by simp) ?_
  | some asmFile =>
  cases linkR with
  | err m =>
      refine ⟨?_, ?_, by simp [pipelineBody, hup]⟩
      · simp only [pipelineBody, hup, progressWrites_append, progressWrites_map_stage]
        exact stepChainB_append
          (stepChainB_append (by decide) (stepChainB_replicate _ 25)) (by decide)
      · simp only [pipelineBody, hup]
        intro m' hm'
        repeat' first
          | exact allMid_map_stage _ _
          | exact allMid_nil
          | refine allMid_append ?_ ?_
          | refine allMid_cons (by simp) ?_
  | ok _ =>
  cases startR with
  | err m =>
      refine ⟨?_, ?_, by simp [pipelineBody, hup]⟩
      · simp only [pipelineBody, hup, progressWrites_append, progressWrites_map_stage]
        exact stepChainB_append
          (stepChainB_append (by decide) (stepChainB_replicate _ 25)) (by decide)
      · simp only [pipelineBody, hup]
        intro m' hm'
        repeat' first
          | exact allMid_map_stage _ _
          | exact allMid_nil
          | refine allMid_append ?_ ?_
          | refine allMid_cons (by simp) ?_
  | ok urn =>
  cases hpoll : (checkTranslationStatus orc).result with
  | error e =>
      refine ⟨?_, ?_, by simp [pipelineBody, hup, hpoll]⟩
      · simp only [pipelineBody, hup, hpoll, progressWrites_append, progressWrites_map_stage]
        exact stepChainB_hi_mono (by omega)
          (stepChainB_append
            (stepChainB_append
              (stepChainB_append (by decide) (stepChainB_replicate _ 25)) (by decide))
            (stepChainB_replicate _ 65))
      · simp only [pipelineBody, hup, hpoll]
        intro m' hm'
        repeat' first
          | exact allMid_map_stage _ _
          | exact allMid_nil
          | refine allMid_append ?_ ?_
          | refine allMid_cons (by simp) ?_
  | ok _ =>
  cases metaR with
  | err m =>
      refine ⟨?_, ?_, by simp [pipelineBody, hup, hpoll]⟩
      · simp only [pipelineBody, hup, hpoll, progressWrites_append, progressWrites_map_stage]
        exact stepChainB_append
          (stepChainB_append
            (stepChainB_append
              (stepChainB_append (by decide) (stepChainB_replicate _ 25)) (by decide))
            (stepChainB_replicate _ 65)) (by decide)
      · simp only [pipelineBody, hup, hpoll]
        intro m' hm'
        repeat' first
          | exact allMid_map_stage _ _
          | exact allMid_nil
          | refine allMid_append ?_ ?_
          | refine allMid_cons (by simp) ?_
  | ok guid =>
  cases hierR with
  | err m =>
      refine ⟨?_, ?_, by simp [pipelineBody, hup, hpoll]⟩
      · simp only [pipelineBody, hup, hpoll, progressWrites_append, progressWrites_map_stage]
        exact stepChainB_append
          (stepChainB_append
            (stepChainB_append
              (stepChainB_append (by decide) (stepChainB_replicate _ 25)) (by decide))
            (stepChainB_replicate _ 65)) (by decide)
      · simp only [pipelineBody, hup, hpoll]
        intro m' hm'
        repeat' first
          | exact allMid_map_stage _ _
          | exact allMid_nil
          | refine allMid_append ?_ ?_
          | refine allMid_cons (by simp) ?_
  | ok _ =>
  cases propR with
  | err m =>
      refine ⟨?_, ?_, by simp [pipelineBody, hup, hpoll]⟩
      · simp only [pipelineBody, hup, hpoll, progressWrites_append, progressWrites_map_stage]
        exact stepChainB_append
          (stepChainB_append
            (stepChainB_append
              (stepChainB_append (by decide) (stepChainB_replicate _ 25)) (by decide))
            (stepChainB_replicate _ 65)) (by decide)
      · simp only [pipelineBody, hup, hpoll]
        intro m' hm'
        repeat' first
          | exact allMid_map_stage _ _
          | exact allMid_nil
          | refine allMid_append ?_ ?_
          | refine allMid_cons (by simp) ?_
  | ok _ =>
      refine ⟨?_, by simp [pipelineBody, hup, hpoll], ?_⟩
      · simp only [pipelineBody, hup, hpoll, progressWrites_append, progressWrites_map_stage]
        refine stepChainB_append
          (stepChainB_append
            (stepChainB_append
              (stepChainB_append (by decide) (stepChainB_replicate _ 25)) (by decide))
            (stepChainB_replicate _ 65)) ?_
        have hfin : progressWrites
            [stageUpd "Retrieving metadata" 80, stageUpd "Extracting hierarchy" 85,
             stageUpd "Retrieving properties" 95, completedUpd tok urn bk] =
            [80, 85, 95, 100] := rfl
        rw [hfin]; decide
      · intro _
        refine ⟨[processingUpd, stageUpd "Creating bucket" 10, stageUpd "Uploading files" 20] ++
            (uploadAllFiles files).1.map (fun m => stageUpd m 25) ++
            [stageUpd "Detecting assembly file" 30, stageUpd "Linking references" 40,
             stageUpd "Starting translation" 50,
             stageUpd "Translating model (this may take several minutes)" 60] ++
            (checkTranslationStatus orc).msgs.map (fun m => stageUpd m 65) ++
            [stageUpd "Retrieving metadata" 80, stageUpd "Extracting hierarchy" 85,
             stageUpd "Retrieving properties" 95], tok, urn, ?_, ?_⟩
        · simp [pipelineBody, hup, hpoll]
        · repeat' first
            | exact allMid_map_stage _ _
            | exact allMid_nil
            | refine allMid_append ?_ ?_
            | refine allMid_cons (by simp) ?_

lemma updatesOf_append (a b : List Effect) :
    updatesOf (a ++ b) = updatesOf a ++ updatesOf b :=
  List.filterMap_append a b _

lemma updatesOf_map_update (us : List SessionUpdate) :
    updatesOf (us.map Effect.update) = us := by
  induction us with
  | nil => rfl
  | cons u l ih => simp [updatesOf] at ih ⊢; exact ih

lemma updatesOf_cleanup (rmResult : JsResult Unit) (p : String) :
    updatesOf (cleanupPath rmResult p) = [] := by
  cases rmResult <;> rfl

/-- The session writes of `processFiles` are the `try` block's writes,
followed by the `failed` record exactly when the body threw. -/
lemma processFiles_updates (env : PipelineEnv) (rmResult : JsResult Unit)
    (sessionId folderPath : String) :
    updatesOf (processFiles env rmResult sessionId folderPath) =
      (pipelineBody env).1 ++
        (match (pipelineBody env).2 with
          | none => []
          | some m => [failedUpd m]) := by
  cases h : (pipelineBody env).2 with
  | none =>
      simp [processFiles, h, updatesOf_append, updatesOf_map_update, updatesOf_cleanup]
  | some m =>
      simp only [processFiles, h]
      rw [updatesOf_append, updatesOf_append, updatesOf_map_update, updatesOf_cleanup]
      simp [updatesOf]

/-! ## Claim C1: progress monotonicity -/

/-- A run whose very first remote call (token acquisition) throws. -/
def envTokenFail : PipelineEnv :=
  { tokenResult := .err "Access token error: request failed"
    bucketKey := "bucket_0123"
    bucketResult := .ok true
    uploadFiles := []
    assemblyResult := some "main.iam"
    linkResult := .ok true
    startJobResult := .ok "dXJu"
    manifestOracle := fun _ => .body "success" (some "100%") none
    metadataResult := .ok "guid"
    hierarchyResult := .ok ()
    propertiesResult := .ok () }

@[simp] lemma queuedUpd_status (fn : String) : (queuedUpd fn).status = some Status.queued := rfl

@[simp] lemma stageUpd_status (m : String) (p : Nat) : (stageUpd m p).status = none := rfl

@[simp] lemma processingUpd_status : processingUpd.status = some Status.processing := rfl

@[simp] lemma completedUpd_status (t r b : String) :
    (completedUpd t r b).status = some Status.completed := rfl

@[simp] lemma failedUpd_status (m : String) : (failedUpd m).status = some Status.failed := rfl

@[simp] lemma failedUpd_progress (m : String) : (failedUpd m).progress = some 0 := rfl

lemma midUpd_status {u : SessionUpdate} (h : midUpd u) :
    u.status = none ∨ u.status = some Status.processing := by
  rcases h with rfl | ⟨m, p, rfl⟩
  · exact Or.inr rfl
  · exact Or.inl rfl

lemma nonFailed_eq_self {l : List SessionUpdate}
    (h : ∀ u ∈ l, u.status ≠ some Status.failed) : nonFailed l = l :=
  List.filter_eq_self.mpr (fun u hu => by simpa using h u hu)

/-- C1, claim as stated: every session update of a job writes a progress
value at least as large as every earlier one.  Refuted: a run whose token
acquisition fails writes progress 5 and then the failure record resets
progress to 0. -/
theorem claim_progress_monotonic_counterexample :
    ¬ List.Chain' (· ≤ ·)
      (progressWrites (jobUpdates "model.zip" envTokenFail (.ok ()) "sid" "uploads/session_sid")) := by
  have h : progressWrites (jobUpdates "model.zip" envTokenFail (.ok ()) "sid"
      "uploads/session_sid") = [0, 5, 0] := rfl
  rw [h]
  simp [List.chain'_cons]

/-- C1 amended: across a whole job the progress values written by all
updates other than the terminal `failed` record are non-decreasing (from
the queued 0 up to 100 on success), and the `failed` record is the only
update that writes a smaller value — it always resets progress to 0. -/
theorem progress_nondecreasing_except_failure_reset (fn : String) (env : PipelineEnv)
    (rm : JsResult Unit) (sid fp : String) :
    List.Chain' (· ≤ ·) (progressWrites (nonFailed (jobUpdates fn env rm sid fp))) ∧
    ∀ u ∈ jobUpdates fn env rm sid fp,
      u.status = some Status.failed → u.progress = some 0 := by
  obtain ⟨hchain, herr, hok⟩ := pipelineBody_facts env
  have hupd := processFiles_updates env rm sid fp
  have hqchain : stepChainB 0 (0 :: progressWrites (pipelineBody env).1) 100 = true := by
    simp only [stepChainB, Bool.and_eq_true, decide_eq_true_eq]
    exact ⟨le_refl 0, hchain⟩
  constructor
  · cases hb : (pipelineBody env).2 with
    | some m =>
        have hmid := herr m hb
        have hJ : jobUpdates fn env rm sid fp =
            queuedUpd fn :: ((pipelineBody env).1 ++ [failedUpd m]) := by
          simp [jobUpdates, hupd, hb]
        have hbody : nonFailed (pipelineBody env).1 = (pipelineBody env).1 :=
          nonFailed_eq_self (fun u hu => by
            rcases midUpd_status (hmid u hu) with h | h <;> simp [h])
        have hnf : nonFailed (jobUpdates fn env rm sid fp) =
            queuedUpd fn :: (pipelineBody env).1 := by
          rw [hJ]
          simp [nonFailed, List.filter_append] at hbody ⊢
          exact hbody
        rw [hnf]
        apply @chain'_of_stepChainB 0 100
        have hpw : progressWrites (queuedUpd fn :: (pipelineBody env).1) =
            0 :: progressWrites (pipelineBody env).1 := by
          simp [progressWrites, queuedUpd]
        rw [hpw]
        exact hqchain
    | none =>
        obtain ⟨l, t, r, hl, hlm⟩ := hok hb
        have hJ : jobUpdates fn env rm sid fp =
            queuedUpd fn :: (pipelineBody env).1 := by
          simp [jobUpdates, hupd, hb]
        have hbody : nonFailed (pipelineBody env).1 = (pipelineBody env).1 := by
          rw [hl]
          apply nonFailed_eq_self
          intro u hu
          rcases List.mem_append.1 hu with h | h
          · rcases midUpd_status (hlm u h) with h' | h' <;> simp [h']
          · rcases List.mem_singleton.1 h with rfl
            simp
        have hnf : nonFailed (jobUpdates fn env rm sid fp) =
            queuedUpd fn :: (pipelineBody env).1 := by
          rw [hJ]
          simp [nonFailed] at hbody ⊢
          exact hbody
        rw [hnf]
        apply @chain'_of_stepChainB 0 100
        have hpw : progressWrites (queuedUpd fn :: (pipelineBody env).1) =
            0 :: progressWrites (pipelineBody env).1 := by
          simp [progressWrites, queuedUpd]
        rw [hpw]
        exact hqchain
  · intro u hu hfail
    have hu' : u = queuedUpd fn ∨ u ∈ updatesOf (processFiles env rm sid fp) := by
      simpa [jobUpdates] using hu
    rcases hu' with rfl | hu'
    · simp at hfail
    · rw [hupd] at hu'
      cases hb : (pipelineBody env).2 with
      | some m =>
          rw [hb] at hu'
          rcases List.mem_append.1 hu' with h | h
          · rcases midUpd_status (herr m hb u h) with h' | h' <;> simp [h'] at hfail
          · rcases List.mem_singleton.1 h with rfl
            simp
      | none =>
          rw [hb] at hu'
          obtain ⟨l, t, r, hl, hlm⟩ := hok hb
          rw [hl] at hu'
          simp only [List.append_nil] at hu'
          rcases List.mem_append.1 hu' with h | h
          · rcases midUpd_status (hlm u h) with h' | h' <;> simp [h'] at hfail
          · rcases List.mem_singleton.1 h with rfl
            simp at hfail

/-- Witness: the amended C1 theorem on the concrete token-failure run — the
non-failed progress writes are the chain [0, 5], and the failed update in
that run writes progress 0. -/
theorem progress_nondecreasing_except_failure_reset_witness :
    List.Chain' (· ≤ ·) (progressWrites (nonFailed
      (jobUpdates "model.zip" envTokenFail (.ok ()) "sid" "uploads/session_sid"))) ∧
    failedUpd "Access token error: request failed" ∈
      jobUpdates "model.zip" envTokenFail (.ok ()) "sid" "uploads/session_sid" ∧
    (failedUpd "Access token error: request failed").progress = some 0 :=
  ⟨(progress_nondecreasing_except_failure_reset "model.zip" envTokenFail (.ok ())
      "sid" "uploads/session_sid").1,
   by decide,
   (progress_nondecreasing_except_failure_reset "model.zip" envTokenFail (.ok ())
      "sid" "uploads/session_sid").2
     (failedUpd "Access token error: request failed") (by decide) rfl⟩

/-! ## Claim C2: terminal-state record invariant -/

/-- The invariant claimed for session records: `completed` implies progress
100 with a result payload, `failed` implies a recorded error. -/
def sessionInv (s : Session) : Prop :=
  (s.status = some Status.completed → s.progress = some 100 ∧ s.result.isSome = true) ∧
  (s.status = some Status.failed → s.error.isSome = true)

/-- `sessionInv` lifted to a store state with possibly no record yet. -/
def storeInv : Option Session → Prop
  | none => True
  | some s => sessionInv s

/-- The store state holds no terminal record. -/
def nonTerminalState : Option Session → Prop
  | none => True
  | some s => s.status ≠ some Status.completed ∧ s.status ≠ some Status.failed

/-- An update is self-certifying: when it sets a terminal status it also
carries the fields the invariant demands. -/
def goodUpd (u : SessionUpdate) : Prop :=
  (u.status = some Status.completed → u.progress = some 100 ∧ u.result.isSome = true) ∧
  (u.status = some Status.failed → u.error.isSome = true)

/-- An update that moves the record into a terminal status. -/
def terminalUpd (u : SessionUpdate) : Prop :=
  u.status = some Status.completed ∨ u.status = some Status.failed

lemma storeInv_of_nonTerminal {s : Option Session} (h : nonTerminalState s) : storeInv s := by
  cases s with
  | none => trivial
  | some s =>
      obtain ⟨h1, h2⟩ := h
      exact ⟨fun hc => absurd hc h1, fun hf => absurd hf h2⟩

lemma sessionInv_step {s : Option Session} {u : SessionUpdate} {now : Int}
    (hg : goodUpd u) (hs : nonTerminalState s) : sessionInv (updateSession s u now) := by
  obtain ⟨hg1, hg2⟩ := hg
  cases hstat : u.status with
  | some v =>
      constructor
      · intro hc
        simp only [updateSession, mergeField, hstat] at hc ⊢
        cases hc
        obtain ⟨hp, hr⟩ := hg1 hstat
        simp [hp, hr, mergeField]
        rcases Option.isSome_iff_exists.1 hr with ⟨x, hx⟩
        simp [hx]
      · intro hf
        simp only [updateSession, mergeField, hstat] at hf ⊢
        cases hf
        have he := hg2 hstat
        rcases Option.isSome_iff_exists.1 he with ⟨x, hx⟩
        simp [hx]
  | none =>
      cases s with
      | none =>
          constructor <;> intro h <;>
            simp only [updateSession, mergeField, hstat] at h <;> cases h
      | some s0 =>
          obtain ⟨h1, h2⟩ := hs
          constructor <;> intro h <;>
            simp only [updateSession, mergeField, hstat] at h
          · exact absurd h h1
          · exact absurd h h2

lemma nonTerminal_step {s : Option Session} {u : SessionUpdate} {now : Int}
    (hu : ¬terminalUpd u) (hs : nonTerminalState s) :
    nonTerminalState (some (updateSession s u now)) := by
  rw [terminalUpd, not_or] at hu
  cases hstat : u.status with
  | some v =>
      refine ⟨?_, ?_⟩ <;> intro h <;>
        simp only [updateSession, mergeField, hstat] at h <;> cases h
      · exact hu.1 hstat
      · exact hu.2 hstat
  | none =>
      cases s with
      | none =>
          refine ⟨?_, ?_⟩ <;> intro h <;>
            simp only [updateSession, mergeField, hstat] at h <;> cases h
      | some s0 =>
          obtain ⟨h1, h2⟩ := hs
          refine ⟨?_, ?_⟩ <;> intro h <;>
            simp only [updateSession, mergeField, hstat] at h
          · exact h1 h
          · exact h2 h

lemma applyUpdates_cons (u : SessionUpdate) (us : List SessionUpdate) (s : Option Session) :
    applyUpdates (u :: us) s = applyUpdates us (some (updateSession s u 0)) := rfl

/-- Folding any prefix of a well-shaped update list (terminal updates only
in last position, all updates self-certifying) preserves the invariant. -/
lemma storeInv_take (l : List SessionUpdate) (s : Option Session)
    (hlast : ∀ u ∈ l.dropLast, ¬terminalUpd u) (hgood : ∀ u ∈ l, goodUpd u)
    (hs : nonTerminalState s) (k : Nat) :
    storeInv (applyUpdates (l.take k) s) := by
  induction l generalizing s k with
  | nil => simpa [applyUpdates] using storeInv_of_nonTerminal hs
  | cons u l' ih =>
      cases k with
      | zero => simpa [applyUpdates] using storeInv_of_nonTerminal hs
      | succ k =>
          rw [List.take_succ_cons, applyUpdates_cons]
          cases l' with
          | nil =>
              simp only [List.take_nil, applyUpdates]
              exact sessionInv_step (hgood u (by simp)) hs
          | cons v l'' =>
              have hu_mid : ¬terminalUpd u := hlast u (by simp)
              apply ih
              · intro w hw
                refine hlast w ?_
                rw [List.dropLast_cons₂]
                exact List.mem_cons_of_mem u hw
              · intro w hw
                exact hgood w (List.mem_cons_of_mem u hw)
              · exact nonTerminal_step hu_mid hs

lemma goodUpd_of_mid {u : SessionUpdate} (h : midUpd u) : goodUpd u := by
  rcases midUpd_status h with h' | h' <;> constructor <;> intro hc <;>
    rw [h'] at hc <;> cases hc

lemma notTerminal_of_mid {u : SessionUpdate} (h : midUpd u) : ¬terminalUpd u := by
  rcases midUpd_status h with h' | h' <;> intro hc <;> rcases hc with hc | hc <;>
    rw [h'] at hc <;> cases hc

lemma goodUpd_queued (fn : String) : goodUpd (queuedUpd fn) := by
  constructor <;> intro hc <;> simp [queuedUpd] at hc

lemma notTerminal_queued (fn : String) : ¬terminalUpd (queuedUpd fn) := by
  intro hc
  rcases hc with hc | hc <;> simp [queuedUpd] at hc

lemma goodUpd_completed (t r b : String) : goodUpd (completedUpd t r b) := by
  constructor <;> intro hc
  · simp [completedUpd]
  · simp [completedUpd] at hc

lemma goodUpd_failed (m : String) : goodUpd (failedUpd m) := by
  constructor <;> intro hc
  · simp [failedUpd] at hc
  · simp [failedUpd]

/-- C2: every session record state reachable during a job — any prefix of
the job's update sequence folded over an empty store — satisfies:
`completed` implies progress 100 and a present result, `failed` implies a
present error. -/
theorem terminal_record_fields_invariant (fn : String) (env : PipelineEnv)
    (rm : JsResult Unit) (sid fp : String) (k : Nat) :
    storeInv (applyUpdates ((jobUpdates fn env rm sid fp).take k) none) := by
  obtain ⟨_, herr, hok⟩ := pipelineBody_facts env
  have hupd := processFiles_updates env rm sid fp
  apply storeInv_take
  · cases hb : (pipelineBody env).2 with
    | some m =>
        have hmid := herr m hb
        have hJ : jobUpdates fn env rm sid fp =
            (queuedUpd fn :: (pipelineBody env).1) ++ [failedUpd m] := by
          simp [jobUpdates, hupd, hb]
        rw [hJ, List.dropLast_concat]
        intro u hu
        rcases List.mem_cons.1 hu with rfl | h
        · exact notTerminal_queued fn
        · exact notTerminal_of_mid (hmid u h)
    | none =>
        obtain ⟨l, t, r, hl, hlm⟩ := hok hb
        have hJ : jobUpdates fn env rm sid fp =
            (queuedUpd fn :: l) ++ [completedUpd t r env.bucketKey] := by
          simp [jobUpdates, hupd, hb, hl]
        rw [hJ, List.dropLast_concat]
        intro u hu
        rcases List.mem_cons.1 hu with rfl | h
        · exact notTerminal_queued fn
        · exact notTerminal_of_mid (hlm u h)
  · intro u hu
    have hu' : u = queuedUpd fn ∨ u ∈ updatesOf (processFiles env rm sid fp) := by
      simpa [jobUpdates] using hu
    rcases hu' with rfl | hu'
    · exact goodUpd_queued fn
    · rw [hupd] at hu'
      cases hb : (pipelineBody env).2 with
      | some m =>
          rw [hb] at hu'
          rcases List.mem_append.1 hu' with h | h
          · exact goodUpd_of_mid (herr m hb u h)
          · rcases List.mem_singleton.1 h with rfl
            exact goodUpd_failed m
      | none =>
          rw [hb] at hu'
          obtain ⟨l, t, r, hl, hlm⟩ := hok hb
          rw [hl] at hu'
          simp only [List.append_nil] at hu'
          rcases List.mem_append.1 hu' with h | h
          · exact goodUpd_of_mid (hlm u h)
          · rcases List.mem_singleton.1 h with rfl
            exact goodUpd_completed t r env.bucketKey
  · trivial

/-! ## Claim C4: cleanup on every exit path -/

/-- C4: whatever the stage outcomes, `processFiles` invokes
`FileUtils.cleanupPath`'s `fs.rm` on the staged folder before returning
(success and failure paths alike, via `finally`); the session writes are
identical whether or not the removal itself fails, so a cleanup failure
never changes the recorded pipeline outcome; and a failed removal is
logged. -/
theorem staged_folder_cleanup_guaranteed (env : PipelineEnv) (sid fp : String) :
    (∀ rmResult, Effect.rm fp ∈ processFiles env rmResult sid fp) ∧
    (∀ rm1 rm2,
      updatesOf (processFiles env rm1 sid fp) = updatesOf (processFiles env rm2 sid fp)) ∧
    (∀ m, Effect.logError ("Cleanup failed for " ++ fp ++ ": " ++ m) ∈
      processFiles env (.err m) sid fp) := by
  refine ⟨?_, ?_, ?_⟩
  · intro rmResult
    have h : Effect.rm fp ∈ cleanupPath rmResult fp := by
      cases rmResult <;> simp [cleanupPath]
    exact List.mem_append.2 (Or.inr h)
  · intro rm1 rm2
    rw [processFiles_updates, processFiles_updates]
  · intro m
    have h : Effect.logError ("Cleanup failed for " ++ fp ++ ": " ++ m) ∈
        cleanupPath (JsResult.err m) fp := by
      simp [cleanupPath]
    exact List.mem_append.2 (Or.inr h)

/-! ## Claim C5: translation-wait polling policy -/

lemma checkStatusGo_attempts_le (oracle : Nat → ManifestResp) :
    ∀ fuel attempt, (checkStatusGo oracle attempt fuel).attempts ≤ fuel := by
  intro fuel
  induction fuel with
  | zero => intro attempt; simp [checkStatusGo]
  | succ fuel ih =>
      intro attempt
      cases h : oracle attempt with
      | body st pr msgs =>
          by_cases h1 : st = "success"
          · simp [checkStatusGo, h, h1]
          · by_cases h2 : st = "failed" ∨ st = "timeout"
            · simp [checkStatusGo, h, h1, h2]
            · have := ih (attempt + 1)
              simp [checkStatusGo, h, h1, h2]
              omega
      | httpErr code =>
          by_cases h1 : code = 404 ∧ attempt < 3
          · have := ih (attempt + 1)
            simp [checkStatusGo, h, h1]
            omega
          · simp [checkStatusGo, h, h1]
      | netErr m => simp [checkStatusGo, h]

lemma checkStatusGo_attempts_pos (oracle : Nat → ManifestResp) (fuel attempt : Nat) :
    1 ≤ (checkStatusGo oracle attempt (fuel + 1)).attempts := by
  cases h : oracle attempt with
  | body st pr msgs =>
      by_cases h1 : st = "success"
      · simp [checkStatusGo, h, h1]
      · by_cases h2 : st = "failed" ∨ st = "timeout"
        · simp [checkStatusGo, h, h1, h2]
        · simp [checkStatusGo, h, h1, h2]
  | httpErr code =>
      by_cases h1 : code = 404 ∧ attempt < 3
      · simp [checkStatusGo, h, h1]
      · simp [checkStatusGo, h, h1]
  | netErr m => simp [checkStatusGo, h]

/-- Running the loop across `n` not-yet-ready attempts only accumulates
callback messages and attempt count; the remaining run is unchanged. -/
lemma checkStatusGo_skip (oracle : Nat → ManifestResp) :
    ∀ n a fuel, (∀ j, a ≤ j → j < a + n → notReadyAt oracle j) →
    ∃ ms, checkStatusGo oracle a (n + fuel) =
      ⟨ms ++ (checkStatusGo oracle (a + n) fuel).msgs,
       (checkStatusGo oracle (a + n) fuel).attempts + n,
       (checkStatusGo oracle (a + n) fuel).result⟩ := by
  intro n
  induction n with
  | zero => intro a fuel _; exact ⟨[], by simp⟩
  | succ n ih =>
      intro a fuel hnr
      have ha : notReadyAt oracle a := hnr a (le_refl a) (by omega)
      have hrec := ih (a + 1) fuel (fun j hj1 hj2 => hnr j (by omega) (by omega))
      obtain ⟨ms', hms'⟩ := hrec
      have hstep : (n + 1) + fuel = (n + fuel) + 1 := by omega
      rw [hstep]
      have haddr : a + 1 + n = a + (n + 1) := by omega
      rcases ha with hpend | ⟨h404, hlt3⟩
      · cases h : oracle a with
        | body st pr msgs =>
            rw [h] at hpend
            have h1 : ¬ st = "success" := fun hc => hpend (Or.inl hc)
            have h2 : ¬ (st = "failed" ∨ st = "timeout") := fun hc =>
              hpend (Or.inr hc)
            refine ⟨("Translation " ++ st ++ " - " ++ pr.getD "0%") :: ms', ?_⟩
            simp only [checkStatusGo, h]
            rw [if_neg h1, if_neg h2, hms', haddr]
            simp only [PollRun.mk.injEq, List.cons_append, List.append_assoc]
            exact ⟨trivial, by omega, trivial⟩
        | httpErr code =>
            rw [h] at hpend
            exact absurd hpend (by simp [isPendingResp])
        | netErr m =>
            rw [h] at hpend
            exact absurd hpend (by simp [isPendingResp])
      · refine ⟨ms', ?_⟩
        simp only [checkStatusGo, h404]
        rw [if_pos]
        · rw [hms', haddr]
          simp only [PollRun.mk.injEq, List.append_assoc]
          exact ⟨trivial, by omega, trivial⟩
        · exact ⟨trivial, hlt3⟩

/-- A remote-reported terminal failure at the current attempt stops the
loop at once with the `remoteFailure` outcome. -/
lemma checkStatusGo_failed (oracle : Nat → ManifestResp) (a fuel : Nat)
    (st : String) (pr : Option String) (msgs : Option (List String))
    (h : oracle a = .body st pr msgs) (hst : st = "failed" ∨ st = "timeout") :
    checkStatusGo oracle a (fuel + 1) =
      ⟨["Translation " ++ st ++ " - " ++ pr.getD "0%"], 1,
       .error (.remoteFailure (failureMessage msgs st))⟩ := by
  have h1 : ¬ st = "success" := by
    rcases hst with rfl | rfl <;> decide
  simp [checkStatusGo, h, h1, hst]

/-- C5: the translation-status wait (i) performs at most
`floor(budget / interval)` manifest polls; (ii) surfaces a remote-reported
`failed`/`timeout` status immediately, with no further polling, as the
`remoteFailure` outcome; (iii) treats an HTTP 404 within the first three
attempts as not-yet-ready and keeps polling; (iv) yields the distinct
`pollTimeout` outcome when the budget is exhausted; and (v) `pollTimeout`
is distinguishable from any remote-reported failure. -/
theorem translation_poll_policy :
    (∀ oracle, (checkTranslationStatus oracle).attempts ≤
      TRANSLATION_TIMEOUT_MINUTES * 60 * 1000 / TRANSLATION_CHECK_INTERVAL) ∧
    (∀ oracle i st pr msgs, (∀ j, j < i → notReadyAt oracle j) → i < maxAttempts →
      oracle i = .body st pr msgs → (st = "failed" ∨ st = "timeout") →
        (checkTranslationStatus oracle).result =
          .error (.remoteFailure (failureMessage msgs st)) ∧
        (checkTranslationStatus oracle).attempts = i + 1) ∧
    (∀ oracle i, (∀ j, j ≤ i → notReadyAt oracle j) → i + 1 < maxAttempts →
      i + 2 ≤ (checkTranslationStatus oracle).attempts) ∧
    (∀ oracle, (∀ j, j < maxAttempts → notReadyAt oracle j) →
      (checkTranslationStatus oracle).result =
        .error (.pollTimeout TRANSLATION_TIMEOUT_MINUTES)) ∧
    (∀ m minutes, TransError.pollTimeout minutes ≠ TransError.remoteFailure m) := by
  refine ⟨?_, ?_, ?_, ?_, ?_⟩
  · intro oracle
    exact checkStatusGo_attempts_le oracle maxAttempts 0
  · intro oracle i st pr msgs hnr hi horacle hst
    obtain ⟨ms, hms⟩ := checkStatusGo_skip oracle i 0 (maxAttempts - i)
      (fun j hj1 hj2 => hnr j (by omega))
    have hma : i + (maxAttempts - i) = maxAttempts := by omega
    have hfuel : maxAttempts - i = (maxAttempts - i - 1) + 1 := by omega
    have hstep := checkStatusGo_failed oracle i (maxAttempts - i - 1) st pr msgs horacle hst
    rw [← hfuel] at hstep
    rw [hma] at hms
    simp only [Nat.zero_add] at hms
    constructor
    · show (checkStatusGo oracle 0 maxAttempts).result = _
      rw [hms, hstep]
    · show (checkStatusGo oracle 0 maxAttempts).attempts = i + 1
      rw [hms, hstep]
      simp [Nat.add_comm]
  · intro oracle i hnr hi
    obtain ⟨ms, hms⟩ := checkStatusGo_skip oracle (i + 1) 0 (maxAttempts - (i + 1))
      (fun j hj1 hj2 => hnr j (by omega))
    have hma : (i + 1) + (maxAttempts - (i + 1)) = maxAttempts := by omega
    have hfuel : maxAttempts - (i + 1) = (maxAttempts - (i + 1) - 1) + 1 := by omega
    rw [hma] at hms
    simp only [Nat.zero_add] at hms
    show i + 2 ≤ (checkStatusGo oracle 0 maxAttempts).attempts
    rw [hms]
    have hpos : 1 ≤ (checkStatusGo oracle (i + 1) (maxAttempts - (i + 1))).attempts := by
      rw [hfuel]
      exact checkStatusGo_attempts_pos oracle _ (i + 1)
    simp only
    omega
  · intro oracle hnr
    obtain ⟨ms, hms⟩ := checkStatusGo_skip oracle maxAttempts 0 0
      (fun j hj1 hj2 => hnr j (by omega))
    have hma : maxAttempts + 0 = maxAttempts := by omega
    rw [hma] at hms
    simp only [Nat.zero_add] at hms
    show (checkStatusGo oracle 0 maxAttempts).result = _
    rw [hms]
    simp [checkStatusGo]
  · intro m minutes h
    cases h

/-- A manifest history: 404 on the first attempt, pending on the second,
remote-reported failure on the third. -/
def oracleRemoteFail : Nat → ManifestResp := fun j =>
  if j = 0 then .httpErr 404
  else if j = 1 then .body "inprogress" (some "50% complete") none
  else .body "failed" none (some ["Unrecoverable exit code from extractor: -536870935"])

/-- Witness for the polling-policy theorem on `oracleRemoteFail`: the 404
and the pending response are retried, the remote failure is surfaced on the
third attempt with no further polling. -/
theorem translation_poll_policy_witness :
    (checkTranslationStatus oracleRemoteFail).result =
      .error (.remoteFailure "Unrecoverable exit code from extractor: -536870935") ∧
    (checkTranslationStatus oracleRemoteFail).attempts = 3 := by
  have h := translation_poll_policy.2.1 oracleRemoteFail 2 "failed" none
    (some ["Unrecoverable exit code from extractor: -536870935"])
    (by decide) (by decide) rfl (Or.inl rfl)
  exact ⟨h.1, h.2⟩

/-! ## Claim C3: submission validation
(`processUpload`, processController.js lines 139-225, and the multer
storage/filter of the upload middleware, `src/unnamed/part_001`) -/

/-- An uploaded file as seen by multer and the controller. -/
structure UploadedFile where
  originalname : String
  mimetype : String
  /-- `new AdmZip(zipPath).getEntries()`: `none` when the constructor
  throws (payload is not a well-formed zip), otherwise the entry list. -/
  entries : Option (List String)
deriving DecidableEq, Repr

/-- multer `fileFilter` (part_001 lines 56-62): accept zip mimetype or a
`.zip`-named file. -/
def fileFilterAccepts (f : UploadedFile) : Bool :=
  f.mimetype = "application/zip" || f.originalname.toLower.endsWith ".zip"

/-- The responses `POST /process` can produce. -/
inductive SubmitResponse where
  | missingFile
  | invalidZip
  | uploadRejected (msg : String)
  | started (sessionId : String)
deriving DecidableEq, Repr

/-- Observable effects of one submission, in order. -/
inductive SubmitEffect where
  /-- `fs.mkdir('uploads/')` in `storage.destination`. -/
  | mkdirUploadsDir
  /-- multer stores the raw zip under `uploads/`. -/
  | storeZip (name : String)
  /-- `SessionManager.updateSession` (which also creates the record's
  `responses/session_<id>` folder). -/
  | sessionWrite (u : SessionUpdate)
  /-- `fs.mkdir` of a per-session directory. -/
  | mkdirSessionDir (path : String)
  | extractZip (path : String)
  | launchPipeline
  | respond (r : SubmitResponse)
  /-- `finally`: `FileUtils.cleanupPath(zipPath)`. -/
  | removeZip
deriving DecidableEq, Repr

/-- The `processUpload` controller body: validate presence, parse the zip
and reject empty or malformed archives, otherwise create the session
record, the per-session directories, extract, launch the pipeline and
answer with the job identifier; the `finally` always removes the raw
zip (when one was stored). -/
def processUpload (file : Option UploadedFile) (sessionId : String) : List SubmitEffect :=
  match file with
  | none => [.respond .missingFile]
  | some f =>
    match f.entries with
    | none => [.respond .invalidZip, .removeZip]
    | some [] => [.respond .invalidZip, .removeZip]
    | some (_ :: _) =>
        [.sessionWrite (queuedUpd f.originalname),
         .mkdirSessionDir ("uploads/session_" ++ sessionId),
         .mkdirSessionDir ("responses/session_" ++ sessionId),
         .extractZip ("uploads/session_" ++ sessionId),
         .launchPipeline,
         .respond (.started sessionId),
         .removeZip]

/-- The whole `POST /process` path: multer's `fileFilter` runs first; an
accepted file is stored (after `storage.destination` ensures `uploads/`)
and then the controller runs. -/
def handleProcessRequest (file : Option UploadedFile) (sessionId : String) :
    List SubmitEffect :=
  match file with
  | none => processUpload none sessionId
  | some f =>
      if fileFilterAccepts f then
        .mkdirUploadsDir :: .storeZip f.originalname :: processUpload (some f) sessionId
      else
        [.respond (.uploadRejected "Only ZIP files are allowed")]

/-- The payload is missing, empty, or not a well-formed archive. -/
def invalidPayload : Option UploadedFile → Prop
  | none => True
  | some f => f.entries = none ∨ f.entries = some []

/-- An effect that creates a directory. -/
def createsDir : SubmitEffect → Bool
  | .mkdirUploadsDir => true
  | .mkdirSessionDir _ => true
  | _ => false

/-- An effect that answers the request. -/
def isRespond : SubmitEffect → Bool
  | .respond _ => true
  | _ => false

/-- A response that rejects the submission. -/
def isRejection : SubmitResponse → Bool
  | .missingFile => true
  | .invalidZip => true
  | .uploadRejected _ => true
  | .started _ => false

/-- An empty archive named like a zip: it passes multer's filter. -/
def emptyZipFile : UploadedFile :=
  { originalname := "model.zip", mimetype := "application/zip", entries := some [] }

/-- C3, claim as stated: an invalid submission is rejected before any
directory is created.  Refuted: for an empty `.zip` payload multer's
`storage.destination` issues `fs.mkdir('uploads/')` (and stores the zip)
before the controller can reject it. -/
theorem claim_reject_before_mkdir_counterexample :
    invalidPayload (some emptyZipFile) ∧
    SubmitEffect.mkdirUploadsDir ∈
      (handleProcessRequest (some emptyZipFile) "sid").takeWhile
        (fun e => !(isRespond e)) := by
  constructor
  · exact Or.inr rfl
  · decide

/-- C3 amended: an invalid submission (missing, empty, or malformed
payload) is always answered with a rejection, never `started`; no session
record is written and no per-session directory is created, and the
pipeline is never launched.  Only the shared `uploads/` staging directory
may be (re-)created — and the raw zip stored — by the upload middleware
before the rejection. -/
theorem submission_invalid_rejected (file : Option UploadedFile) (sessionId : String)
    (h : invalidPayload file) :
    (∃ r, SubmitEffect.respond r ∈ handleProcessRequest file sessionId ∧
      isRejection r = true) ∧
    (∀ r, SubmitEffect.respond r ∈ handleProcessRequest file sessionId →
      isRejection r = true) ∧
    (∀ u, SubmitEffect.sessionWrite u ∉ handleProcessRequest file sessionId) ∧
    (∀ p, SubmitEffect.mkdirSessionDir p ∉ handleProcessRequest file sessionId) ∧
    SubmitEffect.launchPipeline ∉ handleProcessRequest file sessionId := by
  cases file with
  | none =>
      refine ⟨⟨.missingFile, by simp [handleProcessRequest, processUpload], rfl⟩, ?_, ?_, ?_, ?_⟩ <;>
        simp [handleProcessRequest, processUpload, isRejection]
  | some f =>
      by_cases hacc : fileFilterAccepts f
      · rcases h with hnone | hempty
        · refine ⟨⟨.invalidZip, ?_, rfl⟩, ?_, ?_, ?_, ?_⟩ <;>
            simp [handleProcessRequest, processUpload, hacc, hnone, isRejection]
        · refine ⟨⟨.invalidZip, ?_, rfl⟩, ?_, ?_, ?_, ?_⟩ <;>
            simp [handleProcessRequest, processUpload, hacc, hempty, isRejection]
      · refine ⟨⟨.uploadRejected "Only ZIP files are allowed", ?_, rfl⟩, ?_, ?_, ?_, ?_⟩ <;>
          simp [handleProcessRequest, processUpload, hacc, isRejection]

/-- Witness: the amended C3 theorem applied to the concrete empty-zip
submission. -/
theorem submission_invalid_rejected_witness :
    invalidPayload (some emptyZipFile) ∧
    (∀ u, SubmitEffect.sessionWrite u ∉ handleProcessRequest (some emptyZipFile) "sid") ∧
    (∀ p, SubmitEffect.mkdirSessionDir p ∉ handleProcessRequest (some emptyZipFile) "sid") :=
  ⟨Or.inr rfl,
   (submission_invalid_rejected (some emptyZipFile) "sid" (Or.inr rfl)).2.2.1,
   (submission_invalid_rejected (some emptyZipFile) "sid" (Or.inr rfl)).2.2.2.1⟩

/-! ## Claim C6: retention sweeper (`SessionManager.cleanupOldSessions`,
sessionService.js lines 80-125) -/

/-- JavaScript `String.prototype.startsWith`, modelled over the character
lists (Lean's own `String.startsWith` goes through byte positions that the
kernel cannot evaluate). -/
def jsStartsWith (s pre : String) : Bool :=
  List.isPrefixOf pre.data s.data

/-- What the sweeper can observe of a directory's `session.json`. -/
inductive RecordFile where
  /-- `fs.stat` throws: the record file is missing or unreadable. -/
  | unstatable
  /-- The file stats fine but its content does not parse as a record.
  (The sweeper never reads the content, only the stat.) -/
  | corrupt (mtimeMs : Int)
  /-- A well-formed record.  Its mtime is the time of the last
  `updateSession` write — the same moment that write stamped `updatedAt`. -/
  | valid (mtimeMs : Int)
deriving DecidableEq, Repr

/-- One entry of `fs.readdir('responses', \x7b withFileTypes: true \x7d)`. -/
structure FsEntry where
  name : String
  isDirectory : Bool
  record : RecordFile
deriving DecidableEq, Repr

/-- `fs.stat(sessionFile)`'s `mtime`, or `none` when it throws. -/
def statMtime : RecordFile → Option Int
  | .unstatable => none
  | .corrupt t => some t
  | .valid t => some t

/-- The sweep loop (lines 89-115): only `session_`-prefixed directories are
considered; a statable record is removed when its mtime is before the
cutoff; a failing stat falls into the catch, which removes the directory
anyway. -/
def cleanupLoop (cutoff : Int) : List FsEntry → List String
  | [] => []
  | e :: rest =>
      if e.isDirectory && jsStartsWith e.name "session_" then
        match statMtime e.record with
        | some t =>
            if t < cutoff then e.name :: cleanupLoop cutoff rest
            else cleanupLoop cutoff rest
        | none => e.name :: cleanupLoop cutoff rest
      else cleanupLoop cutoff rest

/-- `SessionManager.cleanupOldSessions`: cutoff is now minus the retention
window; returns the directory names removed, in scan order. -/
def cleanupOldSessions (nowMs : Int) (entries : List FsEntry) : List String :=
  cleanupLoop (nowMs - (SESSION_CLEANUP_HOURS : Int) * 60 * 60 * 1000) entries

/-- The condition under which the code removes an entry. -/
def codeExpired (nowMs : Int) (e : FsEntry) : Bool :=
  e.isDirectory && jsStartsWith e.name "session_" &&
    (match statMtime e.record with
     | some t => decide (t < nowMs - (SESSION_CLEANUP_HOURS : Int) * 60 * 60 * 1000)
     | none => true)

/-- Modelled from the spec's words for claim C6: a session directory is
expired when its record timestamp is older than the retention window, and a
directory with an unreadable or corrupt record is treated as expired. -/
def claimC6Expired (nowMs : Int) (e : FsEntry) : Prop :=
  e.isDirectory = true ∧ jsStartsWith e.name "session_" = true ∧
    (match e.record with
     | .valid t => t < nowMs - (SESSION_CLEANUP_HOURS : Int) * 60 * 60 * 1000
     | .corrupt _ => True
     | .unstatable => True)

/-- A fixture instant (milliseconds since epoch). -/
def sweepNow : Int := 1750000000000

/-- A session directory whose record was rewritten one hour ago but does
not parse. -/
def corruptRecentEntry : FsEntry :=
  { name := "session_corrupt", isDirectory := true,
    record := .corrupt (sweepNow - 3600000) }

/-- C6, claim as stated: a sweep removes exactly the expired directories,
treating a corrupt record as expired.  Refuted: the sweeper only stats
`session.json` and never parses it, so a directory whose record is corrupt
but recently written is kept, although the claim says it is expired. -/
theorem claim_sweeper_corrupt_counterexample :
    claimC6Expired sweepNow corruptRecentEntry ∧
    cleanupOldSessions sweepNow [corruptRecentEntry] = [] := by
  refine ⟨⟨rfl, by decide, trivial⟩, ?_⟩
  rfl

/-- C6 amended: a sweep removes exactly those `session_`-prefixed
directories whose `session.json` cannot be stat-ed or whose file mtime
(the time of the record's last write, i.e. its `updatedAt` stamp) is older
than the retention window; every other entry — including non-session
entries, corrupt-but-recently-written records, and mid-pipeline sessions
with a recent update — is left untouched. -/
theorem sweeper_removes_exactly_stale (nowMs : Int) (entries : List FsEntry)
    (hnodup : (entries.map FsEntry.name).Nodup) :
    cleanupOldSessions nowMs entries =
      (entries.filter (codeExpired nowMs)).map FsEntry.name ∧
    ∀ e ∈ entries, codeExpired nowMs e = false →
      e.name ∉ cleanupOldSessions nowMs entries := by
  have hmain : ∀ l : List FsEntry,
      cleanupOldSessions nowMs l = (l.filter (codeExpired nowMs)).map FsEntry.name := by
    intro l
    induction l with
    | nil => rfl
    | cons e rest ih =>
        by_cases hd : e.isDirectory && jsStartsWith e.name "session_"
        · cases hstat : statMtime e.record with
          | some t =>
              by_cases ht : t < nowMs - (SESSION_CLEANUP_HOURS : Int) * 60 * 60 * 1000
              · have he : codeExpired nowMs e = true := by
                  simp [codeExpired, hstat, ht]
                  exact Bool.and_eq_true_iff.1 hd
                simp only [cleanupOldSessions, cleanupLoop, hd, hstat, ht, if_true,
                  if_pos ht, List.filter_cons, he]
                rw [List.map_cons]
                exact congrArg _ ih
              · have he : codeExpired nowMs e = false := by
                  simp [codeExpired, hstat, ht]
                simp only [cleanupOldSessions, cleanupLoop, hd, hstat, if_neg ht,
                  List.filter_cons, he, if_true]
                exact ih
          | none =>
              have he : codeExpired nowMs e = true := by
                simp [codeExpired, hstat]
                exact Bool.and_eq_true_iff.1 hd
              simp only [cleanupOldSessions, cleanupLoop, hd, hstat, if_true,
                List.filter_cons, he]
              rw [List.map_cons]
              exact congrArg _ ih
        · have he : codeExpired nowMs e = false := by
            simp [codeExpired]
            intro h1 h2
            exfalso
            exact hd (by simp [h1, h2])
          simp only [cleanupOldSessions, cleanupLoop, hd, List.filter_cons, he,
            if_false, Bool.false_eq_true]
          exact ih
  refine ⟨hmain entries, ?_⟩
  intro e he hexp hmem
  rw [hmain entries] at hmem
  rcases List.mem_map.1 hmem with ⟨e', he', hname⟩
  have he'mem : e' ∈ entries := List.mem_of_mem_filter he'
  have he'exp : codeExpired nowMs e' = true := List.of_mem_filter he'
  have : e' = e := List.inj_on_of_nodup_map hnodup he'mem he hname
  rw [this] at he'exp
  rw [he'exp] at hexp
  cases hexp

/-- Fixture record set: an expired completed session, a mid-pipeline
session updated a minute ago, an unstatable record, a corrupt-but-recent
record, and a stray non-session file. -/
def staleEntry : FsEntry :=
  { name := "session_old", isDirectory := true, record := .valid (sweepNow - 48 * 3600000) }

/-- A mid-pipeline session updated a minute before `sweepNow`. -/
def activeEntry : FsEntry :=
  { name := "session_active", isDirectory := true, record := .valid (sweepNow - 60000) }

/-- A session directory whose record cannot be stat-ed. -/
def brokenEntry : FsEntry :=
  { name := "session_broken", isDirectory := true, record := .unstatable }

/-- A stray non-session file in the responses directory. -/
def strayEntry : FsEntry :=
  { name := "notes.txt", isDirectory := false, record := .unstatable }

def sweepFixture : List FsEntry :=
  [staleEntry, activeEntry, brokenEntry, corruptRecentEntry, strayEntry]

/-- Witness: the amended C6 theorem on the fixture — exactly the stale and
the unstatable session directories are removed, and the mid-pipeline
session survives. -/
theorem sweeper_removes_exactly_stale_witness :
    cleanupOldSessions sweepNow sweepFixture = ["session_old", "session_broken"] ∧
    "session_active" ∉ cleanupOldSessions sweepNow sweepFixture := by
  have h := sweeper_removes_exactly_stale sweepNow sweepFixture (by decide)
  refine ⟨?_, ?_⟩
  · rw [h.1]
    rfl
  · exact h.2 activeEntry (by decide) (by decide)

/-! ## Claim C7: response sanitizer (`generateAnimationWithGemini`,
`src/unnamed/part_004` lines 947-959)

The sanitizer manipulates JavaScript strings; they are modelled as
character lists so the kernel can evaluate them.  `JSON.parse` is a
platform builtin; it is modelled below by an executable recursive-descent
parser restricted to the constructs the generated command lists use
(integral numbers, strings with the common escapes, arrays, objects,
booleans, null). -/

/-- JSON values as produced by `JSON.parse`. -/
inductive Json where
  | null
  | bool (b : Bool)
  | num (n : Int)
  | str (s : List Char)
  | arr (xs : List Json)
  | obj (fields : List (List Char × Json))

/-- JSON / JavaScript whitespace (the forms occurring here). -/
def isJsonWs (c : Char) : Bool :=
  c = ' ' || c = '\n' || c = '\t' || c = '\r'

def isDigitChar (c : Char) : Bool := '0' ≤ c && c ≤ '9'

def skipWs (cs : List Char) : List Char := cs.dropWhile isJsonWs

/-- Read a run of digits, most significant first. -/
def readDigits (acc : Nat) : List Char → Nat × List Char
  | [] => (acc, [])
  | c :: rest =>
      if isDigitChar c then readDigits (acc * 10 + (c.toNat - '0'.toNat)) rest
      else (acc, c :: rest)

/-- Parse a natural-number literal (at least one digit). -/
def parseNatLit : List Char → Option (Nat × List Char)
  | [] => none
  | c :: rest =>
      if isDigitChar c then some (readDigits (c.toNat - '0'.toNat) rest)
      else none

/-- Parse a string literal body (after the opening quote), handling the
common escapes; `\x7bu` escapes and control characters are rejected. -/
def parseStringBody : List Char → Option (List Char × List Char)
  | [] => none
  | c :: rest =>
      if c = '"' then some ([], rest)
      else if c = '\\' then
        match rest with
        | [] => none
        | e :: rest2 =>
            let ec : Option Char :=
              if e = '"' then some '"'
              else if e = '\\' then some '\\'
              else if e = '/' then some '/'
              else if e = 'n' then some '\n'
              else if e = 't' then some '\t'
              else if e = 'r' then some '\r'
              else none
            match ec with
            | some d => (parseStringBody rest2).map (fun p => (d :: p.1, p.2))
            | none => none
      else if c.toNat < 32 then none
      else (parseStringBody rest).map (fun p => (c :: p.1, p.2))

def lbraceChar : Char := Char.ofNat 123

def rbraceChar : Char := Char.ofNat 125

mutual

/-- Parse one JSON value. -/
def parseVal : Nat → List Char → Option (Json × List Char)
  | 0, _ => none
  | fuel + 1, cs =>
    match skipWs cs with
    | [] => none
    | c :: rest =>
        if c = 'n' then
          match rest with
          | 'u' :: 'l' :: 'l' :: r => some (.null, r)
          | _ => none
        else if c = 't' then
          match rest with
          | 'r' :: 'u' :: 'e' :: r => some (.bool true, r)
          | _ => none
        else if c = 'f' then
          match rest with
          | 'a' :: 'l' :: 's' :: 'e' :: r => some (.bool false, r)
          | _ => none
        else if c = '"' then
          (parseStringBody rest).map (fun p => (.str p.1, p.2))
        else if c = '-' then
          (parseNatLit rest).map (fun p => (.num (-(p.1 : Int)), p.2))
        else if isDigitChar c then
          (parseNatLit (c :: rest)).map (fun p => (.num (p.1 : Int), p.2))
        else if c = '[' then
          match skipWs rest with
          | d :: r2 =>
              if d = ']' then some (.arr [], r2)
              else
                match parseVal fuel rest with
                | some (v, r3) => parseArrTail fuel [v] r3
                | none => none
          | [] => none
        else if c = lbraceChar then
          match skipWs rest with
          | d :: r2 =>
              if d = rbraceChar then some (.obj [], r2)
              else
                match parseMember fuel rest with
                | some (kv, r3) => parseObjTail fuel [kv] r3
                | none => none
          | [] => none
        else none

/-- After a parsed element: a comma continues the array, `]` closes it. -/
def parseArrTail : Nat → List Json → List Char → Option (Json × List Char)
  | 0, _, _ => none
  | fuel + 1, acc, cs =>
    match skipWs cs with
    | c :: rest =>
        if c = ',' then
          match parseVal fuel rest with
          | some (v, r2) => parseArrTail fuel (acc ++ [v]) r2
          | none => none
        else if c = ']' then some (.arr acc, rest)
        else none
    | [] => none

/-- One `"key": value` member. -/
def parseMember : Nat → List Char → Option ((List Char × Json) × List Char)
  | 0, _ => none
  | fuel + 1, cs =>
    match skipWs cs with
    | c :: rest =>
        if c = '"' then
          match parseStringBody rest with
          | some (k, r2) =>
              match skipWs r2 with
              | d :: r3 =>
                  if d = ':' then
                    match parseVal fuel r3 with
                    | some (v, r4) => some ((k, v), r4)
                    | none => none
                  else none
              | [] => none
          | none => none
        else none
    | [] => none

/-- After a parsed member: a comma continues the object, the closing brace
ends it. -/
def parseObjTail : Nat → List (List Char × Json) → List Char → Option (Json × List Char)
  | 0, _, _ => none
  | fuel + 1, acc, cs =>
    match skipWs cs with
    | c :: rest =>
        if c = ',' then
          match parseMember fuel rest with
          | some (kv, r2) => parseObjTail fuel (acc ++ [kv]) r2
          | none => none
        else if c = rbraceChar then some (.obj acc, rest)
        else none
    | [] => none

end

/-- `JSON.parse`: one value, with only whitespace after it. -/
def jsonParse (cs : List Char) : Option Json :=
  match parseVal (2 * cs.length + 2) cs with
  | some (v, rest) => if skipWs rest = [] then some v else none
  | none => none

/-- JavaScript `String.prototype.trim`, over character lists. -/
def trimChars (cs : List Char) : List Char :=
  ((cs.dropWhile isJsonWs).reverse.dropWhile isJsonWs).reverse

/-- The `             ` + `json` opening fence marker. -/
def fenceJson : List Char := "```json".data

/-- The bare fence marker. -/
def fenceMark : List Char := "```".data

/-- Drop the last `n` characters. -/
def dropRightChars (cs : List Char) (n : Nat) : List Char :=
  (cs.reverse.drop n).reverse

/-- `text.replace(/```$/, "")`: remove one trailing fence if present. -/
def stripTrailingFence (cs : List Char) : List Char :=
  if List.isPrefixOf fenceMark.reverse cs.reverse then dropRightChars cs 3 else cs

/-- The code-block cleaning of `generateAnimationWithGemini` (lines
952-954): strip a leading ` ```json ` or ` ``` ` marker, one trailing
` ``` `, and re-trim; text with any other (or no) leading marker is left
unchanged. -/
def cleanGemini (text : List Char) : List Char :=
  if List.isPrefixOf fenceJson text then
    trimChars (stripTrailingFence (text.drop 7))
  else if List.isPrefixOf fenceMark text then
    trimChars (stripTrailingFence (text.drop 3))
  else text

/-- The generation-failure error (`Invalid JSON from Gemini: ...`). -/
inductive GenError where
  | malformed (message : List Char)

/-- The sanitizer: trim the raw generative text, clean code-block fences,
`JSON.parse` it; a parse failure throws an error carrying the first 100
characters of the cleaned text. -/
def sanitizeGeminiResponse (raw : List Char) : Except GenError Json :=
  let text := trimChars raw
  let cleaned := cleanGemini text
  match jsonParse cleaned with
  | some v => .ok v
  | none =>
      .error (.malformed
        ("Invalid JSON from Gemini: ".data ++ cleaned.take 100 ++ "...".data))

/-- Modelled from the spec: strip a single optional surrounding
fenced-code-block marker *with or without a language tag* — drop the whole
opening fence line (backticks and any tag up to the line end) and one
trailing fence — then trim. -/
def specStripFence (raw : List Char) : List Char :=
  let text := trimChars raw
  if List.isPrefixOf fenceMark text then
    trimChars (stripTrailingFence ((text.drop 3).dropWhile (fun c => c ≠ '\n')))
  else text

/-- A fenced block with a `python` language tag holding a valid list. -/
def pythonFenced : List Char := "```python\n[1, 2]\n```".data

/-- C7, claim as stated: the sanitizer strips a fence marker with or
without a language tag, and on parse failure preserves the original raw
text (truncated).  Refuted: for a `python`-tagged fence around a valid
list the code strips only the backticks, leaving the tag, so parsing
fails; and the error carries the post-strip text, not the original raw
text. -/
theorem claim_sanitizer_counterexample :
    jsonParse (specStripFence pythonFenced) = some (.arr [.num 1, .num 2]) ∧
    sanitizeGeminiResponse pythonFenced =
      .error (.malformed "Invalid JSON from Gemini: python\n[1, 2]...".data) ∧
    "Invalid JSON from Gemini: python\n[1, 2]...".data ≠
      "Invalid JSON from Gemini: ".data ++ pythonFenced.take 100 ++ "...".data := by
  refine ⟨rfl, rfl, by decide⟩

lemma dropWhile_cons_false {p : Char → Bool} {c : Char} {l : List Char} (h : p c = false) :
    (c :: l).dropWhile p = c :: l := by
  simp [List.dropWhile_cons, h]

lemma trimChars_cons_ws {c : Char} {l : List Char} (h : isJsonWs c = true) :
    trimChars (c :: l) = trimChars l := by
  simp [trimChars, List.dropWhile_cons, h]

lemma dropWhile_ws_append_single (l : List Char) {c : Char} (hc : isJsonWs c = true) :
    (l ++ [c]).dropWhile isJsonWs =
      if l.dropWhile isJsonWs = [] then [] else l.dropWhile isJsonWs ++ [c] := by
  induction l with
  | nil => simp [List.dropWhile_cons, hc]
  | cons a l ih =>
      by_cases ha : isJsonWs a
      · simpa [List.dropWhile_cons, ha] using ih
      · simp [List.dropWhile_cons, ha]

lemma trimChars_append_ws {l : List Char} {c : Char} (h : isJsonWs c = true) :
    trimChars (l ++ [c]) = trimChars l := by
  unfold trimChars
  rw [dropWhile_ws_append_single l h]
  by_cases hdl : l.dropWhile isJsonWs = []
  · simp [hdl]
  · rw [if_neg hdl]
    simp [List.reverse_append, List.dropWhile_cons, h]

lemma trimChars_eq_self {l : List Char} (h1 : l.dropWhile isJsonWs = l)
    (h2 : l.reverse.dropWhile isJsonWs = l.reverse) : trimChars l = l := by
  simp [trimChars, h1, h2]

lemma isPrefixOf_append_self (l r : List Char) : l.isPrefixOf (l ++ r) = true := by
  rw [List.isPrefixOf_iff_prefix]
  exact List.prefix_append l r

/-- The raw generative output for a fenced block: marker line, body line,
closing fence. -/
def fencedRaw (marker body : List Char) : List Char :=
  marker ++ '\n' :: (body ++ '\n' :: fenceMark)

lemma fencedRaw_shape (marker body : List Char) :
    fencedRaw marker body = marker ++ (('\n' :: body ++ ['\n']) ++ fenceMark) := by
  simp [fencedRaw]

lemma trimChars_fencedRaw (marker body : List Char)
    (hm : ∃ c t, marker = c :: t ∧ isJsonWs c = false) :
    trimChars (fencedRaw marker body) = fencedRaw marker body := by
  obtain ⟨c, t, hmk, hni⟩ := hm
  apply trimChars_eq_self
  · rw [fencedRaw, hmk]
    exact dropWhile_cons_false hni
  · rw [fencedRaw_shape, ← List.append_assoc, List.reverse_append]
    have hfm : fenceMark.reverse = fenceMark.reverse.headD ' ' :: fenceMark.reverse.tail := by
      decide
    have hws : isJsonWs (fenceMark.reverse.headD ' ') = false := by decide
    rw [hfm]
    rw [List.cons_append, dropWhile_cons_false hws, ← List.cons_append, ← hfm]

lemma stripTrailingFence_concat (y : List Char) :
    stripTrailingFence (y ++ fenceMark) = y := by
  unfold stripTrailingFence
  rw [List.reverse_append, if_pos (by
    rw [List.isPrefixOf_iff_prefix]
    exact List.prefix_append _ _)]
  unfold dropRightChars
  rw [List.reverse_append]
  have h3 : (3 : Nat) = fenceMark.reverse.length := by decide
  rw [h3, List.drop_left, List.reverse_reverse]

lemma cleanGemini_fencedJson (body : List Char) :
    cleanGemini (fencedRaw fenceJson body) = trimChars body := by
  unfold cleanGemini
  rw [if_pos (by rw [fencedRaw_shape]; exact isPrefixOf_append_self _ _)]
  rw [fencedRaw_shape]
  have h7 : (7 : Nat) = fenceJson.length := by decide
  rw [h7, List.drop_left, stripTrailingFence_concat]
  have hn : isJsonWs '\n' = true := by decide
  rw [trimChars_append_ws hn, trimChars_cons_ws hn]

lemma cleanGemini_fencedBare (body : List Char)
    (hnj : fenceJson.isPrefixOf (fencedRaw fenceMark body) = false) :
    cleanGemini (fencedRaw fenceMark body) = trimChars body := by
  unfold cleanGemini
  rw [if_neg (by rw [hnj]; exact Bool.false_ne_true)]
  rw [if_pos (by rw [fencedRaw_shape]; exact isPrefixOf_append_self _ _)]
  rw [fencedRaw_shape]
  have h3 : (3 : Nat) = fenceMark.length := by decide
  rw [h3, List.drop_left, stripTrailingFence_concat]
  have hn : isJsonWs '\n' = true := by decide
  rw [trimChars_append_ws hn, trimChars_cons_ws hn]

/-- C7 amended: the sanitizer strips a surrounding fence only when it is
untagged or tagged exactly `json`; for every raw text of either such shape
whose body parses (and for every unfenced text that parses), the parsed
value is returned unchanged without further validation; every text whose
cleaned form does not parse fails with the generation error carrying the
first 100 characters of the *cleaned* (post-strip) text — an error, never
an empty success. -/
theorem sanitizer_returns_parse_or_fails (body raw : List Char) (v : Json) :
    (jsonParse (trimChars body) = some v →
      sanitizeGeminiResponse (fencedRaw fenceJson body) = .ok v) ∧
    (jsonParse (trimChars body) = some v →
      fenceJson.isPrefixOf (fencedRaw fenceMark body) = false →
      sanitizeGeminiResponse (fencedRaw fenceMark body) = .ok v) ∧
    (fenceMark.isPrefixOf (trimChars raw) = false →
      jsonParse (trimChars raw) = some v →
      sanitizeGeminiResponse raw = .ok v) ∧
    (jsonParse (cleanGemini (trimChars raw)) = none →
      sanitizeGeminiResponse raw =
        .error (.malformed ("Invalid JSON from Gemini: ".data ++
          (cleanGemini (trimChars raw)).take 100 ++ "...".data))) := by
  refine ⟨?_, ?_, ?_, ?_⟩
  · intro hparse
    simp only [sanitizeGeminiResponse]
    rw [trimChars_fencedRaw fenceJson body (by
      refine ⟨fenceJson.headD ' ', fenceJson.tail, by decide, by decide⟩)]
    rw [cleanGemini_fencedJson, hparse]
  · intro hparse hnj
    simp only [sanitizeGeminiResponse]
    rw [trimChars_fencedRaw fenceMark body (by
      refine ⟨fenceMark.headD ' ', fenceMark.tail, by decide, by decide⟩)]
    rw [cleanGemini_fencedBare body hnj, hparse]
  · intro hnross hparse
    simp only [sanitizeGeminiResponse]
    have hclean : cleanGemini (trimChars raw) = trimChars raw := by
      unfold cleanGemini
      have hnj : fenceJson.isPrefixOf (trimChars raw) = false := by
        by_contra hc
        have hc' : fenceJson.isPrefixOf (trimChars raw) = true := by
          cases h : fenceJson.isPrefixOf (trimChars raw)
          · exact absurd h hc
          · rfl
        rw [List.isPrefixOf_iff_prefix] at hc'
        have hfm : fenceMark <+: fenceJson := ⟨"json".data, by decide⟩
        have : fenceMark <+: trimChars raw := hfm.trans hc'
        rw [← List.isPrefixOf_iff_prefix] at this
        rw [this] at hnross
        cases hnross
      rw [if_neg (by rw [hnj]; exact Bool.false_ne_true),
        if_neg (by rw [hnross]; exact Bool.false_ne_true)]
    rw [hclean, hparse]
  · intro hfail
    simp only [sanitizeGeminiResponse]
    rw [hfail]

/-- Witness: the amended sanitizer theorem at a concrete fenced list and a
concrete garbage output. -/
theorem sanitizer_returns_parse_or_fails_witness :
    sanitizeGeminiResponse "```json\n[1, 2]\n```".data = .ok (.arr [.num 1, .num 2]) ∧
    sanitizeGeminiResponse "no json here".data =
      .error (.malformed "Invalid JSON from Gemini: no json here...".data) := by
  constructor
  · have h := (sanitizer_returns_parse_or_fails "[1, 2]".data "".data
      (.arr [.num 1, .num 2])).1 rfl
    have hshape : fencedRaw fenceJson "[1, 2]".data = "```json\n[1, 2]\n```".data := by decide
    rw [← hshape]
    exact h
  · have h := (sanitizer_returns_parse_or_fails "".data "no json here".data
      (.arr [])).2.2.2 rfl
    have hmsg : "Invalid JSON from Gemini: ".data ++
        (cleanGemini (trimChars "no json here".data)).take 100 ++ "...".data =
        "Invalid JSON from Gemini: no json here...".data := by decide
    rw [← hmsg]
    exact h

/-! ## Claims C8, C9, C10: session lookup, status query, credential
issuance (`SessionManager.getSession`, `getStatus` in `src/unnamed/part_002`,
`authenticate` in `src/unnamed/part_003`) -/

/-- What reading + parsing `session.json` can yield. -/
inductive RecordRead where
  /-- `fs.readFile` throws ENOENT. -/
  | absent
  /-- `fs.readFile` throws another error (e.g. EACCES), whose `code` this
  carries. -/
  | ioError (code : String)
  /-- The read succeeds; `none` means `JSON.parse` throws on the content. -/
  | content (parsed : Option Session)

/-- `SessionManager.getSession` (sessionService.js lines 13-29): every
failure path returns null; only non-ENOENT errors are logged.  Result and
log lines. -/
def getSession (sessionId : String) : RecordRead → Option Session × List String
  | .absent => (none, [])
  | .ioError code =>
      (none, ["Error reading session " ++ sessionId ++ ": " ++ code])
  | .content none =>
      (none, ["Error reading session " ++ sessionId ++ ": Unexpected token"])
  | .content (some s) => (some s, [])

/-- A character the `/^[a-f0-9-]+$/i` pattern accepts: a hexadecimal digit
(either case) or a dash. -/
def hexOrDash (c : Char) : Bool :=
  ('a' ≤ c && c ≤ 'f') || ('A' ≤ c && c ≤ 'F') || ('0' ≤ c && c ≤ '9') || c = '-'

/-- `sessionId && sessionId.match(/^[a-f0-9-]+$/i)`: non-empty and all
characters hex-or-dash. -/
def isValidSessionId (s : String) : Bool :=
  !s.data.isEmpty && s.data.all hexOrDash

/-- The responses of `GET /status/:sessionId`. -/
inductive StatusResponse where
  | invalidFormat
  | notFound
  | payload (status : Option Status) (message : Option String) (progress : Nat)
      (result : Option ResultPayload) (error : Option String)
      (createdAt updatedAt : Option Int)

/-- `getStatus` (part_002): validate the identifier format, then look the
record up; unknown identifiers give the not-found outcome.  The boolean
records whether the store was consulted. -/
def getStatus (sessionId : String) (store : RecordRead) : StatusResponse × Bool :=
  if !(isValidSessionId sessionId) then (.invalidFormat, false)
  else
    match (getSession sessionId store).1 with
    | none => (.notFound, true)
    | some s =>
        (.payload s.status s.message (s.progress.getD 0) s.result s.error
          s.createdAt s.updatedAt, true)

/-- The responses of `POST /auth`. -/
inductive AuthResponse where
  | invalidFormat
  | notFound
  | expired
  | token (scopes : List String)
  | authError (msg : String)
deriving DecidableEq, Repr

/-- `authenticate` (part_003): validate the identifier, look the session
up, reject when `(now - createdAt) / 1h` exceeds the retention window, and
otherwise request a fresh token with the read-only `data:read` scope.  A
missing `createdAt` makes the JavaScript comparison `NaN > 24`, which is
false, so such a session is not treated as expired.  The boolean records
whether the store was consulted. -/
def authenticate (sessionId : Option String) (store : RecordRead) (nowMs : Int)
    (tokenResult : JsResult String) : AuthResponse × Bool :=
  match sessionId with
  | none => (.invalidFormat, false)
  | some sid =>
    if !(isValidSessionId sid) then (.invalidFormat, false)
    else
      match (getSession sid store).1 with
      | none => (.notFound, true)
      | some s =>
          let expired :=
            match s.createdAt with
            | some c =>
                decide (nowMs - c > (SESSION_CLEANUP_HOURS : Int) * 60 * 60 * 1000)
            | none => false
          if expired then (.expired, true)
          else
            match tokenResult with
            | .ok _ => (.token ["data:read"], true)
            | .err m => (.authError m, true)

/-- C8, claim as stated: an I/O failure of the record read is distinguished
from absence and fails with a `StoreIOError`.  Refuted: `getSession`
catches every read error and returns null — for a permission failure it
returns exactly the absent result (only logging differs), and the status
endpoint reports the same `SESSION_NOT_FOUND` outcome as for a
never-submitted identifier. -/
theorem claim_store_ioerror_counterexample :
    (getSession "abc123" (.ioError "EACCES")).1 = none ∧
    (getSession "abc123" RecordRead.absent).1 = none ∧
    (getStatus "abc123" (.ioError "EACCES")).1 = StatusResponse.notFound ∧
    (getStatus "abc123" RecordRead.absent).1 = StatusResponse.notFound :=
  ⟨rfl, rfl, rfl, rfl⟩

/-- C8 amended: `getSession` returns absent (not an error) when no record
exists, and a status query for a never-submitted identifier yields the
not-found outcome; however an I/O failure also returns absent — it is only
logged (the sole observable difference), never surfaced as a distinct
store error. -/
theorem get_absent_not_error (sid code : String)
    (hvalid : isValidSessionId sid = true) :
    (getSession sid RecordRead.absent).1 = none ∧
    (getSession sid RecordRead.absent).2 = [] ∧
    (getSession sid (.ioError code)).1 = none ∧
    (getSession sid (.ioError code)).2 ≠ [] ∧
    (getStatus sid RecordRead.absent).1 = StatusResponse.notFound ∧
    (getStatus sid RecordRead.absent).2 = true := by
  refine ⟨rfl, rfl, rfl, by simp [getSession], ?_, ?_⟩ <;>
    simp [getStatus, hvalid, getSession]

/-- Witness: the amended C8 theorem at a concrete well-formed identifier. -/
theorem get_absent_not_error_witness :
    (getSession "0a1b2c" RecordRead.absent).1 = none ∧
    (getStatus "0a1b2c" RecordRead.absent).1 = StatusResponse.notFound :=
  ⟨(get_absent_not_error "0a1b2c" "EACCES" (by decide)).1,
   (get_absent_not_error "0a1b2c" "EACCES" (by decide)).2.2.2.2.1⟩

/-- The retention window in milliseconds. -/
def windowMs : Int := (SESSION_CLEANUP_HOURS : Int) * 60 * 60 * 1000

/-- A fixture instant for the auth check. -/
def authNow : Int := 1750000000000

/-- A session created 30 hours before `authNow` but updated one hour
before it (its pipeline wrote to it recently). -/
def oldCreatedSession : Session :=
  { status := some Status.completed, createdAt := some (authNow - 30 * 3600000),
    updatedAt := some (authNow - 3600000) }

/-- C9, claim as stated: credential issuance rejects exactly the sessions
outside the retention window as measured by `updatedAt`.  Refuted: the
code measures age from `createdAt`; a session updated an hour ago but
created 30 hours ago is rejected as expired. -/
theorem claim_auth_updatedAt_counterexample :
    (∀ u, oldCreatedSession.updatedAt = some u → authNow - u ≤ windowMs) ∧
    (authenticate (some "abc123") (.content (some oldCreatedSession)) authNow
      (.ok "viewer-token")).1 = AuthResponse.expired := by
  constructor
  · intro u hu
    cases hu
    decide
  · rfl

/-- C9 amended: for an existing session the credential request is rejected
exactly when the session's age measured from `createdAt` — not `updatedAt`
— exceeds the retention window; otherwise a fresh token with only the
read-only `data:read` scope is issued. -/
theorem auth_expiry_keyed_to_createdAt (sid : String) (s : Session) (now c : Int)
    (tok : String) (hvalid : isValidSessionId sid = true)
    (hc : s.createdAt = some c) :
    ((authenticate (some sid) (.content (some s)) now (.ok tok)).1 =
        AuthResponse.expired ↔ now - c > windowMs) ∧
    (¬(now - c > windowMs) →
      (authenticate (some sid) (.content (some s)) now (.ok tok)).1 =
        AuthResponse.token ["data:read"]) := by
  have hauth : (authenticate (some sid) (.content (some s)) now (.ok tok)).1 =
      if now - c > windowMs then AuthResponse.expired
      else AuthResponse.token ["data:read"] := by
    by_cases hcond : now - c > windowMs
    · rw [if_pos hcond]
      have hcond' : windowMs < now - c := hcond
      simp only [authenticate, hvalid, getSession, hc, Bool.not_true,
        Bool.false_eq_true, if_false, windowMs] at hcond' ⊢
      simp [hcond']
    · rw [if_neg hcond]
      have hcond' : ¬(windowMs < now - c) := hcond
      simp only [authenticate, hvalid, getSession, hc, Bool.not_true,
        Bool.false_eq_true, if_false, windowMs] at hcond' ⊢
      simp [hcond']
  rw [hauth]
  constructor
  · constructor
    · intro hexp
      by_contra hnot
      rw [if_neg hnot] at hexp
      cases hexp
    · intro hgt
      rw [if_pos hgt]
  · intro hnot
    rw [if_neg hnot]

/-- Witness: the amended C9 theorem on a freshly created session. -/
theorem auth_expiry_keyed_to_createdAt_witness :
    (authenticate (some "0a1b2c") (.content (some { createdAt := some (authNow - 60000) }))
      authNow (.ok "viewer-token")).1 = AuthResponse.token ["data:read"] :=
  (auth_expiry_keyed_to_createdAt "0a1b2c" { createdAt := some (authNow - 60000) }
    authNow (authNow - 60000) "viewer-token" (by decide) rfl).2 (by decide)

/-- C10: a status query or credential request whose session identifier is
empty or contains a character that is not a hexadecimal digit or dash (or
is missing entirely, for the auth body) is answered with the
invalid-format rejection and the session store is never read. -/
theorem malformed_id_rejected_before_lookup (sid : String) (store : RecordRead)
    (now : Int) (tokR : JsResult String)
    (h : sid.data = [] ∨ ∃ c ∈ sid.data, hexOrDash c = false) :
    (getStatus sid store).1 = StatusResponse.invalidFormat ∧
    (getStatus sid store).2 = false ∧
    (authenticate (some sid) store now tokR).1 = AuthResponse.invalidFormat ∧
    (authenticate (some sid) store now tokR).2 = false ∧
    (authenticate none store now tokR).1 = AuthResponse.invalidFormat ∧
    (authenticate none store now tokR).2 = false := by
  have hinv : isValidSessionId sid = false := by
    rcases h with hempty | ⟨c, hcmem, hcbad⟩
    · simp [isValidSessionId, hempty]
    · simp [isValidSessionId]
      intro _
      exact ⟨c, hcmem, by simp [hcbad]⟩
  refine ⟨?_, ?_, ?_, ?_, rfl, rfl⟩ <;> simp [getStatus, authenticate, hinv]

/-- Witness: C10 at a concrete malformed identifier (`zz-9` contains `z`)
and at the empty identifier. -/
theorem malformed_id_rejected_before_lookup_witness :
    (getStatus "zz-9" RecordRead.absent).1 = StatusResponse.invalidFormat ∧
    (getStatus "zz-9" RecordRead.absent).2 = false ∧
    (getStatus "" RecordRead.absent).1 = StatusResponse.invalidFormat :=
  ⟨(malformed_id_rejected_before_lookup "zz-9" RecordRead.absent 0 (.ok "t")
      (Or.inr ⟨'z', by decide, by decide⟩)).1,
   (malformed_id_rejected_before_lookup "zz-9" RecordRead.absent 0 (.ok "t")
      (Or.inr ⟨'z', by decide, by decide⟩)).2.1,
   (malformed_id_rejected_before_lookup "" RecordRead.absent 0 (.ok "t")
      (Or.inl (by decide))).1⟩

end AnimServer
